import Mathlib

/-
Shallow embedding of the partnership-network tax engine implemented in
src/iBOB/network_implementation.py.

Modelling conventions:
 * Python floats are modelled as exact rationals.
 * Python objects that are registered in `Network.assets` under their (unique)
   name are referenced by name; mutating an `Asset` field is an update of the
   registry entry.  `add_entity` always stores an entity under its own name,
   so entities are likewise referenced by name.
 * Python dictionaries (insertion ordered) are association lists in insertion
   order; assignment to an existing key updates it in place, assignment to a
   fresh key appends.
 * The recursive upstream procedures have no termination argument in the
   source (the ownership graph is assumed acyclic), so they take an explicit
   fuel parameter and return `none` when the fuel runs out.  Fuel is consumed
   once per recursive upstream step, exactly mirroring the recursion depth of
   the Python call tree; all other iteration is structural.
 * Exceptions (`ValueError` in validation) become `Except`; a transaction that
   raises is modelled as returning an error and, the state being threaded
   functionally, leaving the input network untouched.
-/

set_option maxRecDepth 20000

deriving instance DecidableEq for Except

attribute [local semireducible] Rat.mul Rat.add Rat.sub Rat.inv Rat.ofScientific

/-- Association list lookup: value stored under the first occurrence of the key. -/
def alookup {K V : Type} [DecidableEq K] (l : List (K × V)) (k : K) : Option V :=
  match l with
  | [] => none
  | kv :: rest => if kv.1 = k then some kv.2 else alookup rest k

/-- Dictionary assignment `d[k] = v`: update the existing key in place, else append. -/
def aset {K V : Type} [DecidableEq K] (l : List (K × V)) (k : K) (v : V) : List (K × V) :=
  if (alookup l k).isSome then
    l.map (fun kv => if kv.1 = k then (kv.1, v) else kv)
  else
    l ++ [(k, v)]

/-- Update the value stored under an existing key (no-op when the key is absent). -/
def aupd {K V : Type} [DecidableEq K] (l : List (K × V)) (k : K) (f : V → V) : List (K × V) :=
  l.map (fun kv => if kv.1 = k then (kv.1, f kv.2) else kv)

/-- Dictionary deletion `del d[k]`. -/
def adrop {K V : Type} [DecidableEq K] (l : List (K × V)) (k : K) : List (K × V) :=
  l.filter (fun kv => decide (kv.1 ≠ k))

/-- Concatenation of a list of lists, as Python `sum(xss, [])`. -/
def flat {α : Type} : List (List α) → List α
  | [] => []
  | l :: ls => l ++ flat ls

/-- An `Asset` record: name, category, tax basis and fair market value. -/
structure Asset where
  name : String
  type_of_asset : String
  basis : ℚ
  fmv : ℚ
deriving DecidableEq, Repr

/-- A `PartnershipAsset`: a proxy for a share of an underlying `Asset` (referenced
by registry name) or of another `PartnershipAsset` (nested proxy). -/
inductive PAsset where
  | base (assetName : String) (share : ℚ) (inside_basis : ℚ)
  | nest (original : PAsset) (share : ℚ) (inside_basis : ℚ)
deriving DecidableEq, Repr

def PAsset.share : PAsset → ℚ
  | .base _ s _ => s
  | .nest _ s _ => s

def PAsset.insideBasis : PAsset → ℚ
  | .base _ _ ib => ib
  | .nest _ _ ib => ib

/-- `PartnershipAsset.name`: resolve through nested proxies to the root asset name. -/
def PAsset.rootName : PAsset → String
  | .base n _ _ => n
  | .nest o _ _ => o.rootName

/-- In-place mutation of the `inside_basis` field of a proxy object. -/
def PAsset.setInsideBasis : PAsset → ℚ → PAsset
  | .base n s _, v => .base n s v
  | .nest o s _, v => .nest o s v

/-- A `Partnership` edge: the holding entity owns `share` of the named partner. -/
structure Partnership where
  partner_name : String
  share : ℚ
deriving DecidableEq, Repr

/-- An `Entity`: direct assets (by registry name), a map from partnership edges to
derived proxy lists, and a cash balance. -/
structure Entity where
  name : String
  direct_assets : List String
  partnerships : List (Partnership × List PAsset)
  cash_balance : ℚ
deriving DecidableEq, Repr

/-- The `Network`: entity registry, asset registry and accumulated tax records. -/
structure Network where
  entities : List (String × Entity)
  assets : List (String × Asset)
  tax_records : List (String × ℚ)
deriving DecidableEq, Repr

/-- A transaction good: an `Asset` (by name), a `Partnership` edge, a
`PartnershipAsset` proxy or a cash amount. -/
inductive Good where
  | asset (name : String)
  | partnership (p : Partnership)
  | passet (pa : PAsset)
  | cash (amount : ℚ)
deriving DecidableEq, Repr

structure Transaction where
  entity1 : String
  entity2 : String
  good1 : Good
  good2 : Good
  election754 : Bool
deriving DecidableEq, Repr

def getEntity (net : Network) (k : String) : Option Entity := alookup net.entities k

def assetFmvD (net : Network) (n : String) : ℚ := ((alookup net.assets n).map Asset.fmv).getD 0

def assetBasisD (net : Network) (n : String) : ℚ := ((alookup net.assets n).map Asset.basis).getD 0

def assetTypeD (net : Network) (n : String) : String :=
  ((alookup net.assets n).map Asset.type_of_asset).getD ""

/-- `PartnershipAsset.fmv`, the dynamic property: `original.fmv * share`. -/
def paFmv (net : Network) : PAsset → ℚ
  | .base n s _ => assetFmvD net n * s
  | .nest o s _ => paFmv net o * s

/-- `PartnershipAsset.type_of_asset`, resolved through the original chain. -/
def paTypeOf (net : Network) (pa : PAsset) : String := assetTypeD net pa.rootName

/-- The total of a proxy chain: the product of the shares along the chain. -/
def chainShare : PAsset → ℚ
  | .base _ s _ => s
  | .nest o s _ => chainShare o * s

/-- Mutate the entity object stored under a registry key. -/
def mapEntity (net : Network) (k : String) (f : Entity → Entity) : Network :=
  { net with entities := net.entities.map (fun ke => if ke.1 = k then (ke.1, f ke.2) else ke) }

/-- In-place mutation of the proxy list held by entity `k` under edge `p`. -/
def updPAList (net : Network) (k : String) (p : Partnership) (f : List PAsset → List PAsset) :
    Network :=
  mapEntity net k (fun e => { e with partnerships := aupd e.partnerships p f })

/-- Dictionary assignment `entity.partnerships[p] = v`. -/
def setPAList (net : Network) (k : String) (p : Partnership) (v : List PAsset) : Network :=
  mapEntity net k (fun e => { e with partnerships := aset e.partnerships p v })

/-- The proxy list held by entity `k` under edge `p` (empty when absent). -/
def getPAListD (net : Network) (k : String) (p : Partnership) : List PAsset :=
  ((getEntity net k).bind (fun e => alookup e.partnerships p)).getD []

/-- `tax_records[k] += amt`. -/
def taxAdd (net : Network) (k : String) (amt : ℚ) : Network :=
  { net with tax_records := aupd net.tax_records k (fun t => t + amt) }

def addDirect (net : Network) (k : String) (an : String) : Network :=
  mapEntity net k (fun e => { e with direct_assets := e.direct_assets ++ [an] })

def subDirect (net : Network) (k : String) (an : String) : Network :=
  mapEntity net k (fun e => { e with direct_assets := e.direct_assets.erase an })

def cashAdj (net : Network) (k : String) (d : ℚ) : Network :=
  mapEntity net k (fun e => { e with cash_balance := e.cash_balance + d })

/-- `good.basis = good.fmv`, the step-up applied on asset transfer. -/
def setBasisToFmv (net : Network) (an : String) : Network :=
  { net with assets :=
      net.assets.map (fun ka => if ka.1 = an then (ka.1, { ka.2 with basis := ka.2.fmv }) else ka) }

/-- Derived proxy for a directly owned asset, scaled by a share. -/
def mkDirectProxy (net : Network) (s : ℚ) (an : String) : PAsset :=
  .base an s (assetBasisD net an * s)

/-- Derived proxy wrapping an existing proxy, scaled by a share. -/
def mkNestProxy (pa : PAsset) (s : ℚ) : PAsset :=
  .nest pa s (pa.insideBasis * s)

/-- `Entity.update_partnership_assets`: the list a holder derives through edge `p`
from the partner entity, direct assets first, then the flattened proxy lists. -/
def derivedEdgeList (net : Network) (p : Partnership) (partner : Entity) : List PAsset :=
  partner.direct_assets.map (mkDirectProxy net p.share)
    ++ (flat (partner.partnerships.map Prod.snd)).map (fun pa => mkNestProxy pa p.share)

def updatePartnershipAssets (net : Network) (k : String) (p : Partnership) : Network :=
  match getEntity net p.partner_name with
  | none => net
  | some partner => setPAList net k p (derivedEdgeList net p partner)

/-- Recompute all derived proxy lists of one entity from the current network. -/
def updateEntityEdges (net : Network) (k : String) : Network :=
  match getEntity net k with
  | none => net
  | some e => (e.partnerships.map Prod.fst).foldl (fun acc p => updatePartnershipAssets acc k p) net

/-- `Network.update_initial_partnership_assets`: wholesale recomputation for every
entity, in registry order, each step seeing the previous updates. -/
def updateInitialPartnershipAssets (net : Network) : Network :=
  (net.entities.map Prod.fst).foldl updateEntityEdges net

def emptyNetwork : Network := ⟨[], [], []⟩

/-- `Network.add_entity`: register the entity and a zero tax record (a duplicate
name overwrites the existing registrations). -/
def addEntity (net : Network) (n : String) (cash : ℚ) : Network :=
  { net with
    entities := aset net.entities n ⟨n, [], [], cash⟩,
    tax_records := aset net.tax_records n 0 }

/-- `Network.add_asset`: create the asset (fmv defaulting to basis), give it to the
owner, register it, then recompute all derived lists. -/
def addAsset (net : Network) (owner n ty : String) (basis : ℚ) (fmv : Option ℚ) : Network :=
  let a : Asset := ⟨n, ty, basis, fmv.getD basis⟩
  let net1 := mapEntity net owner (fun e => { e with direct_assets := e.direct_assets ++ [n] })
  let net2 := { net1 with assets := aset net1.assets n a }
  updateInitialPartnershipAssets net2

/-- `Network.add_partnership`: add the edge to the holder, derive its list, then
recompute all derived lists. -/
def addPartnership (net : Network) (holder partner : String) (s : ℚ) : Network :=
  let p : Partnership := ⟨partner, s⟩
  let net1 := mapEntity net holder (fun e =>
    if (alookup e.partnerships p).isSome then e
    else { e with partnerships := e.partnerships ++ [(p, [])] })
  let net2 := updatePartnershipAssets net1 holder p
  updateInitialPartnershipAssets net2

/-- `Network.is_transaction_viable`: raises unless the entity holds the asset,
holds the partnership edge, or has enough cash; any other good passes. -/
def isTransactionViable (_net : Network) (e : Entity) (g : Good) : Except String Unit :=
  match g with
  | .asset an =>
      if an ∈ e.direct_assets then .ok () else .error (e.name ++ " does not own the asset")
  | .partnership p =>
      if (alookup e.partnerships p).isSome then .ok ()
      else .error (e.name ++ " does not have the partnership")
  | .cash c =>
      if e.cash_balance < c then .error (e.name ++ " does not have enough cash balance")
      else .ok ()
  | .passet _ => .ok ()

/-- `Network.has_substantial_built_in_loss`: built-in loss above the 250000
threshold; `basis - fmv` for an asset, the non-Annuity sum of
`inside_basis - fmv` for a partnership, 0 for anything else. -/
def hasSubstantialBuiltInLoss (net : Network) (g : Good) (ename : String) : Bool :=
  match g with
  | .asset an => decide (assetBasisD net an - assetFmvD net an > 250000)
  | .partnership p =>
      let pas := getPAListD net ename p
      decide (((pas.map (fun pa =>
        if paTypeOf net pa ≠ "Annuity" then pa.insideBasis - paFmv net pa else 0)).sum) > 250000)
  | _ => false

/-- All (holder key, partnership edge) pairs of the network, in registry and
insertion order.  These pairs never change during upstream propagation or tax
recursion (those procedures touch only proxy-list values and tax records), so
snapshotting them at entry is faithful to iterating the live dictionaries. -/
def allEdgePairs (net : Network) : List (String × Partnership) :=
  flat (net.entities.map (fun ke => (ke.2.partnerships.map Prod.fst).map (fun p => (ke.1, p))))

/-- A good being propagated upstream: a registered `Asset` or a proxy object. -/
inductive UpGood where
  | asset (an : String)
  | pa (p : PAsset)
deriving DecidableEq, Repr

/-- The `name` of an upstream good, as resolved by the source. -/
def upGoodName : UpGood → String
  | .asset an => an
  | .pa p => p.rootName

/-- The proxy `add_asset_upstream` creates: `basis * share` for an `Asset`,
`inside_basis * share` for a proxy. -/
def mkUpProxy (net : Network) (g : UpGood) (s : ℚ) : PAsset :=
  match g with
  | .asset an => .base an s (assetBasisD net an * s)
  | .pa p => .nest p s (p.insideBasis * s)

/-- The entity-and-edge loop of `add_asset_upstream`, parametrised by the
recursive call applied at one level less fuel. -/
def aauGo (rec : Network → String → UpGood → Option Network) (net : Network) (ename : String)
    (g : UpGood) (jobs : List (String × Partnership)) : Option Network :=
  match jobs with
  | [] => some net
  | (k, p) :: rest =>
    if p.partner_name = ename then
      let npa := mkUpProxy net g p.share
      let net1 := updPAList net k p (fun l => l ++ [npa])
      match rec net1 k (.pa npa) with
      | none => none
      | some net2 => aauGo rec net2 ename g rest
    else aauGo rec net ename g rest

/-- `Network.add_asset_upstream`, with fuel bounding the recursion depth. -/
def addAssetUpstream : Nat → Network → String → UpGood → Option Network
  | 0, _, _, _ => none
  | f + 1, net, ename, g =>
      aauGo (fun n2 e2 g2 => addAssetUpstream f n2 e2 g2) net ename g (allEdgePairs net)

/-- The inner `for partner_asset in ... : ... .remove(partner_asset)` loop of
`remove_asset_upstream`.  The iterator index advances by one after each step
even when the element at the current index was removed (so the element shifted
into its place is skipped), and the live list is re-read on every step,
exactly as in Python. -/
def rauScan (rec : Network → String → String → Option Network) (net : Network) (k : String)
    (p : Partnership) (gname : String) (i : Nat) (steps : Nat) : Option Network :=
  match steps with
  | 0 => some net
  | st + 1 =>
    match (getPAListD net k p).get? i with
    | none => some net
    | some pa =>
      if pa.rootName = gname then
        let net1 := updPAList net k p (fun l => l.eraseIdx i)
        match rec net1 k gname with
        | none => none
        | some net2 => rauScan rec net2 k p gname (i + 1) st
      else rauScan rec net k p gname (i + 1) st

/-- The entity-and-edge loop of `remove_asset_upstream`. -/
def rauGo (rec : Network → String → String → Option Network) (net : Network) (ename : String)
    (gname : String) (jobs : List (String × Partnership)) : Option Network :=
  match jobs with
  | [] => some net
  | (k, p) :: rest =>
    if p.partner_name = ename then
      match rauScan rec net k p gname 0 (getPAListD net k p).length with
      | none => none
      | some net1 => rauGo rec net1 ename gname rest
    else rauGo rec net ename gname rest

/-- `Network.remove_asset_upstream`; matching is by resolved asset name, and only
the name of the removed good is consulted, so the good is passed by name. -/
def removeAssetUpstream : Nat → Network → String → String → Option Network
  | 0, _, _, _ => none
  | f + 1, net, ename, gname =>
      rauGo (fun n2 e2 g2 => removeAssetUpstream f n2 e2 g2) net ename gname (allEdgePairs net)

/-- The entity-and-edge loop of `add_partnership_upstream`. -/
def apuGo (rec : Network → String → Partnership → Option Network) (net : Network) (ename : String)
    (poi : Partnership) (jobs : List (String × Partnership)) : Option Network :=
  match jobs with
  | [] => some net
  | (k, p) :: rest =>
    if p.partner_name = ename then
      let newAssets := getPAListD net ename poi
      let net1 := updPAList net k p (fun l => l ++ newAssets.map (fun na => mkNestProxy na p.share))
      match rec net1 k p with
      | none => none
      | some net2 => apuGo rec net2 ename poi rest
    else apuGo rec net ename poi rest

/-- `Network.add_partnership_upstream`.  Note that the recursion re-propagates the
holder's entire current list under the matching edge, not just the freshly
added proxies. -/
def addPartnershipUpstream : Nat → Network → String → Partnership → Option Network
  | 0, _, _, _ => none
  | f + 1, net, ename, poi =>
      apuGo (fun n2 e2 p2 => addPartnershipUpstream f n2 e2 p2) net ename poi (allEdgePairs net)

/-- The entity-and-edge loop of `remove_partnership_upstream`. -/
def rpuGo (rec : Network → String → Partnership → Option Network) (net : Network) (ename : String)
    (names : List String) (jobs : List (String × Partnership)) : Option Network :=
  match jobs with
  | [] => some net
  | (k, p) :: rest =>
    if p.partner_name = ename then
      let net1 := updPAList net k p (fun l => l.filter (fun pa => decide (pa.rootName ∉ names)))
      match rec net1 k p with
      | none => none
      | some net2 => rpuGo rec net2 ename names rest
    else rpuGo rec net ename names rest

/-- `Network.remove_partnership_upstream`: the names held under the edge of
interest are collected once, then filtered out of every upstream holder, with
recursion from each holder. -/
def removePartnershipUpstream : Nat → Network → String → Partnership → Option Network
  | 0, _, _, _ => none
  | f + 1, net, ename, poi =>
      rpuGo (fun n2 e2 p2 => removePartnershipUpstream f n2 e2 p2) net ename
        ((getPAListD net ename poi).map PAsset.rootName) (allEdgePairs net)

/-- The sum of the shares of every partnership edge in the network that points at
the named entity. -/
def partnerShareSum (net : Network) (ename : String) : ℚ :=
  (((allEdgePairs net).filter (fun kp => decide (kp.2.partner_name = ename))).map
    (fun kp => kp.2.share)).sum

/-- The proxy-list scan of `_calculate_partner_tax_asset` for one matching edge. -/
def cptaScan (rec : Network → String → String → Option Network) (net : Network) (k : String)
    (aname : String) (pas : List PAsset) : Option Network :=
  match pas with
  | [] => some net
  | pa :: rest =>
    if pa.rootName = aname then
      let rs := 1 - partnerShareSum net k
      let net1 := taxAdd net k (rs * (paFmv net pa - pa.insideBasis))
      match rec net1 k aname with
      | none => none
      | some net2 => cptaScan rec net2 k aname rest
    else cptaScan rec net k aname rest

/-- The entity-and-edge loop of `_calculate_partner_tax_asset`. -/
def cptaGo (rec : Network → String → String → Option Network) (net : Network) (ename : String)
    (aname : String) (jobs : List (String × Partnership)) : Option Network :=
  match jobs with
  | [] => some net
  | (k, p) :: rest =>
    if p.partner_name = ename then
      match cptaScan rec net k aname (getPAListD net k p) with
      | none => none
      | some net1 => cptaGo rec net1 ename aname rest
    else cptaGo rec net ename aname rest

/-- `Network._calculate_partner_tax_asset`. -/
def calcPartnerTaxAsset : Nat → Network → String → String → Option Network
  | 0, _, _, _ => none
  | f + 1, net, ename, aname =>
      cptaGo (fun n2 e2 a2 => calcPartnerTaxAsset f n2 e2 a2) net ename aname (allEdgePairs net)

/-- The entity-and-edge loop of `_calculate_partner_tax_partnership`. -/
def cptpGo (rec : Network → String → Option Network) (net : Network) (ename : String)
    (jobs : List (String × Partnership)) : Option Network :=
  match jobs with
  | [] => some net
  | (k, p) :: rest =>
    if p.partner_name = ename then
      let rs := 1 - partnerShareSum net k
      let pas := getPAListD net k p
      let tf := ((pas.filter (fun pa => decide (paTypeOf net pa ≠ "Annuity"))).map (paFmv net)).sum
      let tib := ((pas.filter (fun pa => decide (paTypeOf net pa ≠ "Annuity"))).map
        PAsset.insideBasis).sum
      let net1 := taxAdd net k (rs * (tf - tib))
      match rec net1 k with
      | none => none
      | some net2 => cptpGo rec net2 ename rest
    else cptpGo rec net ename rest

/-- `Network._calculate_partner_tax_partnership`. -/
def calcPartnerTaxPartnership : Nat → Network → String → Option Network
  | 0, _, _ => none
  | f + 1, net, ename =>
      cptpGo (fun n2 e2 => calcPartnerTaxPartnership f n2 e2) net ename (allEdgePairs net)

/-- `Network.determine_tax`: gain allocation for the seller, then the recursive
upstream allocation; a no-op for cash and proxy goods. -/
def determineTax (fuel : Nat) (net : Network) (ename : String) (g : Good) : Option Network :=
  match g with
  | .asset an =>
      if assetTypeD net an ≠ "Annuity" then
        let rs := 1 - partnerShareSum net ename
        let tax := rs * (assetFmvD net an - assetBasisD net an)
        let net1 := taxAdd net ename tax
        calcPartnerTaxAsset fuel net1 ename an
      else some net
  | .partnership p =>
      let rs := 1 - partnerShareSum net ename
      let pas := getPAListD net ename p
      let tf := ((pas.filter (fun pa => decide (paTypeOf net pa ≠ "Annuity"))).map (paFmv net)).sum
      let tib := ((pas.filter (fun pa => decide (paTypeOf net pa ≠ "Annuity"))).map
        PAsset.insideBasis).sum
      let net1 := taxAdd net ename (rs * (tf - tib))
      calcPartnerTaxPartnership fuel net1 ename
  | _ => some net

/-- `Network.adjust_ownership`: asset transfer with basis step-up and upstream
propagation, partnership transfer of the whole derived list, cash debit/credit. -/
def adjustOwnership (fuel : Nat) (net : Network) (fromName toName : String) (g : Good) :
    Option Network :=
  match g with
  | .asset an =>
      let net1 := setBasisToFmv net an
      let net2 := addDirect net1 toName an
      match addAssetUpstream fuel net2 toName (.asset an) with
      | none => none
      | some net3 =>
          let net4 := subDirect net3 fromName an
          removeAssetUpstream fuel net4 fromName an
  | .partnership p =>
      let pas := getPAListD net fromName p
      let net1 := setPAList net toName p pas
      match addPartnershipUpstream fuel net1 toName p with
      | none => none
      | some net2 =>
          match removePartnershipUpstream fuel net2 fromName p with
          | none => none
          | some net3 =>
              some (mapEntity net3 fromName (fun e => { e with partnerships := adrop e.partnerships p }))
  | .cash c => some (cashAdj (cashAdj net fromName (-c)) toName c)
  | .passet _ => some net

/-- The counterpart value used by `adjust_partner_basis`: basis of an asset,
inside basis of a proxy, a raw cash amount.  A partnership counterpart would
raise a `TypeError` in the source, modelled as `none`. -/
def counterpartValue (net : Network) (g : Good) : Option ℚ :=
  match g with
  | .asset an => some (assetBasisD net an)
  | .passet pa => some pa.insideBasis
  | .cash c => some c
  | .partnership _ => none

/-- One side of `Network.adjust_partner_basis`: when the transferred good is a
partnership, every proxy under it has `inside_basis += (counterpart - inside_basis)`,
then the edge is removed and re-propagated upstream. -/
def adjustPartnerBasisSide (fuel : Nat) (net : Network) (ename : String) (g gOther : Good) :
    Option Network :=
  match g with
  | .partnership p =>
      match counterpartValue net gOther with
      | none => none
      | some cv =>
          let net1 := updPAList net ename p (fun l => l.map (fun pa => pa.setInsideBasis cv))
          match removePartnershipUpstream fuel net1 ename p with
          | none => none
          | some net2 => addPartnershipUpstream fuel net2 ename p
  | _ => some net

def adjustPartnerBasis (fuel : Nat) (net : Network) (tx : Transaction) : Option Network :=
  match adjustPartnerBasisSide fuel net tx.entity1 tx.good1 tx.good2 with
  | none => none
  | some net1 => adjustPartnerBasisSide fuel net1 tx.entity2 tx.good2 tx.good1

inductive TxError where
  | invalid (msg : String)
  | stuck
deriving DecidableEq, Repr

/-- `Network.process_transaction`: validate both sides, optionally adjust basis,
determine tax for both sides, then adjust ownership of both goods. -/
def processTransaction (fuel : Nat) (net : Network) (tx : Transaction) :
    Except TxError Network :=
  match getEntity net tx.entity1 with
  | none => .error (.invalid "unknown entity")
  | some e1 =>
    match getEntity net tx.entity2 with
    | none => .error (.invalid "unknown entity")
    | some e2 =>
      match isTransactionViable net e1 tx.good1 with
      | .error m => .error (.invalid m)
      | .ok _ =>
        match isTransactionViable net e2 tx.good2 with
        | .error m => .error (.invalid m)
        | .ok _ =>
          let step2 : Option Network :=
            if tx.election754 || hasSubstantialBuiltInLoss net tx.good1 tx.entity1
                || hasSubstantialBuiltInLoss net tx.good2 tx.entity2 then
              adjustPartnerBasis fuel net tx
            else some net
          match step2 with
          | none => .error .stuck
          | some n2 =>
            match determineTax fuel n2 tx.entity1 tx.good1 with
            | none => .error .stuck
            | some n3 =>
              match determineTax fuel n3 tx.entity2 tx.good2 with
              | none => .error .stuck
              | some n4 =>
                match adjustOwnership fuel n4 tx.entity1 tx.entity2 tx.good1 with
                | none => .error .stuck
                | some n5 =>
                  match adjustOwnership fuel n5 tx.entity2 tx.entity1 tx.good2 with
                  | none => .error .stuck
                  | some n6 => .ok n6

/-- `Network.tax_liability`: the sum of all tax records. -/
def taxLiability (net : Network) : ℚ := (net.tax_records.map Prod.snd).sum

/-- Scenario for the two-layer chain: A holds a single 50 percent edge at B, B
directly owns asset Z with basis `b` and fmv `b + 100` (gain 100) of type `t`,
and the buyer C starts with cash `cc`.  No other partnership edges exist. -/
def c1Net (b : ℚ) (t : String) (cc : ℚ) : Network :=
  addPartnership (addAsset (addEntity (addEntity (addEntity emptyNetwork "A" 0) "B" 0) "C" cc)
    "B" "Z" t b (some (b + 100))) "A" "B" (1/2)

/-- Scenario of the spec: A (cash 1000) owns H (basis 120, fmv 200), B holds a 50
percent edge at A, C (cash 1000) buys H for 200 cash. -/
def c2Net : Network :=
  addPartnership (addAsset (addEntity (addEntity (addEntity emptyNetwork "A" 1000) "B" 0) "C" 1000)
    "A" "H" "Material" 120 (some 200)) "B" "A" (1/2)

def c2Tx : Transaction := ⟨"A", "C", Good.asset "H", Good.cash 200, false⟩

def c2After : Network := (processTransaction 6 c2Net c2Tx).toOption.getD emptyNetwork

/-- Three-entity chain for the nested-proxy fmv check: A owns Z (fmv 100), B holds
a 50 percent edge at A, C holds a 50 percent edge at B. -/
def c3Net : Network :=
  addPartnership (addPartnership
    (addAsset (addEntity (addEntity (addEntity emptyNetwork "A" 0) "B" 0) "C" 0)
      "A" "Z" "Material" 100 none)
    "B" "A" (1/2)) "C" "B" (1/2)

/-- The nested proxy C derives for Z through B. -/
def c3P : PAsset := .nest (.base "Z" (1/2) 50) (1/2) 25

/-- Five-entity scenario: P owns Z, D holds an edge at P, E owns W, F holds an
edge at E, G holds an edge at F; D then transfers its edge at P to E. -/
def c4Net : Network :=
  addPartnership (addPartnership (addPartnership
    (addAsset (addAsset
      (addEntity (addEntity (addEntity (addEntity (addEntity emptyNetwork "P" 0) "D" 0) "E" 0)
        "F" 0) "G" 0)
      "P" "Z" "Material" 10 none) "E" "W" "Material" 10 none)
    "D" "P" (1/2)) "F" "E" (1/2)) "G" "F" (1/2)

def c4Tx : Transaction := ⟨"D", "E", Good.partnership ⟨"P", 1/2⟩, Good.cash 0, false⟩

def c4After : Network := (processTransaction 8 c4Net c4Tx).toOption.getD emptyNetwork

/-- The items an entity contributes to a partner holding an edge at it: its direct
assets plus its flattened derived lists, by resolved name (the mirror that
propagation completeness is stated against). -/
def mirrorItems (net : Network) (k : String) : List String :=
  match getEntity net k with
  | none => []
  | some e => e.direct_assets ++ (flat (e.partnerships.map Prod.snd)).map PAsset.rootName

/-- One-entity network for exercising validation failures. -/
def c5Net : Network := addEntity emptyNetwork "A" 0

/-- A owns no asset named X, so this transaction must fail validation. -/
def c5Tx : Transaction := ⟨"A", "A", Good.asset "X", Good.cash 0, false⟩

/-- Network for the built-in-loss predicate: Y owns K (basis 800000, fmv 0) and an
Annuity L, X holds a 50 percent edge at Y. -/
def c7Net : Network :=
  addPartnership (addAsset (addAsset (addEntity (addEntity emptyNetwork "X" 0) "Y" 0)
    "Y" "K" "Material" 800000 (some 0)) "Y" "L" "Annuity" 50 (some 10)) "X" "Y" (1/2)

def c7Edge : Partnership := ⟨"Y", 1/2⟩

/-- The fields of an entity that upstream propagation, basis adjustment and tax
recursion never change: name, direct assets and cash. -/
def eCore (e : Entity) : String × List String × ℚ :=
  (e.name, e.direct_assets, e.cash_balance)

/-- The part of the network state untouched by proxy-list and tax-record updates:
the asset registry, every entity registration up to its proxy lists, and the
holder-to-partner edge pairs. -/
def coreView (net : Network) :
    List (String × Asset) × List (String × String × List String × ℚ)
      × List (String × Partnership) :=
  (net.assets, net.entities.map (fun ke => (ke.1, eCore ke.2)), allEdgePairs net)

/-- A ranking certificate of acyclicity for the edge pairs: every holder ranks
strictly below the partner its edge points at. -/
def edgeRankOK (rank : String → Nat) (eps : List (String × Partnership)) : Prop :=
  ∀ kp ∈ eps, rank kp.1 < rank kp.2.partner_name

instance (rank : String → Nat) (eps : List (String × Partnership)) :
    Decidable (edgeRankOK rank eps) := by
  unfold edgeRankOK; infer_instance

/-- Lookup after a keyed in-place map: the stored value with the function applied. -/
theorem alookup_map_set {K V : Type} [DecidableEq K] (k : K) (f : V → V) :
    ∀ l : List (K × V),
      alookup (l.map (fun kv => if kv.1 = k then (kv.1, f kv.2) else kv)) k
        = (alookup l k).map f := by
  intro l
  induction l with
  | nil => rfl
  | cons kv rest ih =>
      by_cases h : kv.1 = k
      · simp [alookup, h]
      · simp [alookup, h, ih]

/-- Lookup distributes over append when the key is absent on the left. -/
theorem alookup_append_of_none {K V : Type} [DecidableEq K] (k : K) (l2 : List (K × V)) :
    ∀ l1 : List (K × V), alookup l1 k = none → alookup (l1 ++ l2) k = alookup l2 k := by
  intro l1
  induction l1 with
  | nil => intro _; rfl
  | cons kv rest ih =>
      intro h
      by_cases hk : kv.1 = k
      · simp [alookup, hk] at h
      · simp [alookup, hk] at h ⊢
        exact ih h

/-- Dictionary assignment stores the value under the key. -/
theorem alookup_aset {K V : Type} [DecidableEq K] (l : List (K × V)) (k : K) (v : V) :
    alookup (aset l k v) k = some v := by
  unfold aset
  rcases ho : alookup l k with _ | w
  · simp only [ho, Option.isSome_none, Bool.false_eq_true, if_false]
    rw [alookup_append_of_none k _ l ho]
    simp [alookup]
  · have hm := alookup_map_set k (fun _ => v) l
    simp only [ho, Option.isSome_some, if_true]
    simpa [ho] using hm

/-- Sum of a guarded map equals the sum of the map over the filtered list. -/
theorem sum_ite_filter {α : Type} (pr : α → Prop) [DecidablePred pr] (f : α → ℚ) :
    ∀ l : List α,
      (l.map (fun x => if pr x then f x else 0)).sum
        = ((l.filter (fun x => decide (pr x))).map f).sum := by
  intro l
  induction l with
  | nil => rfl
  | cons x rest ih =>
      by_cases h : pr x
      · simp [List.filter, h, ih]
      · simp [List.filter, h, ih]

/-- Claim C10: for a cash good, `determine_tax` returns the network unchanged —
the cash leg of a transaction never generates tax, for any amount, entity and
fuel. -/
theorem claim10_cash_tax_frame (fuel : Nat) (net : Network) (ename : String) (c : ℚ) :
    determineTax fuel net ename (Good.cash c) = some net := rfl

/-- Claim C9, counterexample: `add_entity` does not reject a duplicate name; the
second registration is accepted and overwrites the first, resetting the tax
record (the entity map still has a single entry, holding the new cash). -/
theorem claim9_duplicate_not_rejected :
    (addEntity (addEntity emptyNetwork "A" 5) "A" 7).entities = [("A", ⟨"A", [], [], 7⟩)] ∧
    (addEntity (addEntity emptyNetwork "A" 5) "A" 7).tax_records = [("A", 0)] := by
  decide

/-- Claim C9, amended: `add_entity` registers an entity with the given cash and a
zero tax record; a duplicate name overwrites the existing registration (last
write wins) instead of failing. -/
theorem claim9_add_entity_registers (net : Network) (n : String) (c : ℚ) :
    getEntity (addEntity net n c) n = some ⟨n, [], [], c⟩ ∧
    alookup (addEntity net n c).tax_records n = some 0 :=
  ⟨alookup_aset _ _ _, alookup_aset _ _ _⟩

/-- Claim C3, counterexample: the nested proxy held by C exists in the network and
its fmv (25) differs from `share × resolve_root fmv` (50). -/
theorem claim3_nested_fmv_cex :
    getPAListD c3Net "C" ⟨"B", 1/2⟩ = [c3P] ∧
    paFmv c3Net c3P ≠ c3P.share * assetFmvD c3Net c3P.rootName := by
  decide

/-- Claim C3, amended: for every `PartnershipAsset`, the fmv equals the product of
the shares along the whole original chain times the root fmv (equivalently,
`share × original.fmv`), not the top share times the root fmv. -/
theorem claim3_fmv_chain_product (net : Network) (pa : PAsset) :
    paFmv net pa = chainShare pa * assetFmvD net pa.rootName := by
  induction pa with
  | base n s ib => simp [paFmv, chainShare, PAsset.rootName]; ring
  | nest o s ib ih => simp [paFmv, chainShare, PAsset.rootName, ih]; ring

/-- Claim C2, counterexample: in the spec scenario the code records tax of 40 for
B (B's remaining share is 1), not the claimed 20. -/
theorem claim2_taxB_cex :
    processTransaction 6 c2Net c2Tx = Except.ok c2After ∧
    alookup c2After.tax_records "B" = some 40 ∧
    ¬ alookup c2After.tax_records "B" = some 20 := by
  decide

/-- Claim C2, amended: after A sells H to C for 200 cash, A holds cash 1200, H has
basis 200 (step-up), tax records are 40 for A and 40 for B (B is taxed on its
full proxy gain since no edge points at B), and the total equals the gain 80. -/
theorem claim2_scenario_amended :
    processTransaction 6 c2Net c2Tx = Except.ok c2After ∧
    (getEntity c2After "A").map Entity.cash_balance = some 1200 ∧
    (alookup c2After.assets "H").map Asset.basis = some 200 ∧
    alookup c2After.tax_records "A" = some 40 ∧
    alookup c2After.tax_records "B" = some 40 ∧
    taxLiability c2After = 80 := by
  decide

/-- Claim C4: after D transfers its partnership at P to E, the holder G two levels
up ends with two derived proxies for the single item W of F's holdings — the
incremental upstream propagation re-wraps the whole list and duplicates
proxies, violating the exactly-one-proxy-per-item invariant. -/
theorem claim4_duplicate_proxy_upstream :
    processTransaction 8 c4Net c4Tx = Except.ok c4After ∧
    (mirrorItems c4After "F").count "W" = 1 ∧
    ((getPAListD c4After "G" ⟨"F", 1/2⟩).map PAsset.rootName).count "W" = 2 := by
  decide

/-- Claim C5: if either side of the transaction fails validation, the whole
transaction yields a validation error; the network being threaded by value,
the input state is untouched. -/
theorem claim5_validation_aborts (fuel : Nat) (net : Network) (tx : Transaction)
    (e1 e2 : Entity)
    (h1 : getEntity net tx.entity1 = some e1) (h2 : getEntity net tx.entity2 = some e2)
    (hfail : (∃ m, isTransactionViable net e1 tx.good1 = .error m)
      ∨ (∃ m, isTransactionViable net e2 tx.good2 = .error m)) :
    ∃ m, processTransaction fuel net tx = .error (.invalid m) := by
  unfold processTransaction
  simp only [h1, h2]
  cases hv1 : isTransactionViable net e1 tx.good1 with
  | error m => exact ⟨m, rfl⟩
  | ok u =>
    cases hv2 : isTransactionViable net e2 tx.good2 with
    | error m => simp only [hv1]; exact ⟨m, rfl⟩
    | ok u2 =>
      rcases hfail with ⟨m, hm⟩ | ⟨m, hm⟩
      · rw [hv1] at hm; cases hm
      · rw [hv2] at hm; cases hm

/-- Claim C5, witness: a transaction whose first good is an asset the entity does
not own is rejected as invalid. -/
theorem claim5_validation_aborts_w :
    ∃ m, processTransaction 3 c5Net c5Tx = .error (.invalid m) :=
  claim5_validation_aborts 3 c5Net c5Tx ⟨"A", [], [], 0⟩ ⟨"A", [], [], 0⟩ (by decide) (by decide)
    (Or.inl ⟨"A does not own the asset", by decide⟩)

/-- Claim C7: `has_substantial_built_in_loss` is a pure Boolean predicate (it is a
function of the network in this embedding) that holds exactly when the
built-in loss exceeds 250000: `basis - fmv` for an asset, and the sum of
`inside_basis - fmv` over the non-Annuity proxies under the edge for a
partnership. -/
theorem claim7_sbil_characterization (net : Network) (ename an : String)
    (a : Asset) (ha : alookup net.assets an = some a)
    (e : Entity) (he : getEntity net ename = some e)
    (p : Partnership) (pas : List PAsset) (hp : alookup e.partnerships p = some pas) :
    (hasSubstantialBuiltInLoss net (Good.asset an) ename = true ↔ a.basis - a.fmv > 250000) ∧
    (hasSubstantialBuiltInLoss net (Good.partnership p) ename = true ↔
      ((pas.filter (fun pa => decide (paTypeOf net pa ≠ "Annuity"))).map
        (fun pa => pa.insideBasis - paFmv net pa)).sum > 250000) := by
  have hlist : getPAListD net ename p = pas := by
    simp [getPAListD, he, hp]
  constructor
  · simp [hasSubstantialBuiltInLoss, assetBasisD, assetFmvD, ha]
  · simp only [hasSubstantialBuiltInLoss, hlist, decide_eq_true_eq]
    rw [sum_ite_filter (fun pa => paTypeOf net pa ≠ "Annuity")
      (fun pa => pa.insideBasis - paFmv net pa) pas]

/-- Claim C7, witness: in the two-entity network, the asset loss of K (800000)
and the partnership loss of the edge at Y (non-Annuity total 400000) both
exceed the threshold, and the predicate evaluates accordingly. -/
theorem claim7_sbil_characterization_w :
    (hasSubstantialBuiltInLoss c7Net (Good.asset "K") "X" = true ↔
      (800000 : ℚ) - 0 > 250000) ∧
    (hasSubstantialBuiltInLoss c7Net (Good.partnership c7Edge) "X" = true ↔
      (([PAsset.base "K" (1/2) 400000, PAsset.base "L" (1/2) 25].filter
          (fun pa => decide (paTypeOf c7Net pa ≠ "Annuity"))).map
        (fun pa => pa.insideBasis - paFmv c7Net pa)).sum > 250000) :=
  claim7_sbil_characterization c7Net "X" "K" ⟨"K", "Material", 800000, 0⟩ (by decide)
    ⟨"X", [], [(c7Edge, [PAsset.base "K" (1/2) 400000, PAsset.base "L" (1/2) 25])], 0⟩ (by decide)
    c7Edge [PAsset.base "K" (1/2) 400000, PAsset.base "L" (1/2) 25] (by decide)

set_option maxHeartbeats 6000000 in
/-- Claim C1: in the two-layer chain (A holds a single 50 percent edge at B, B
owns a non-Annuity asset with gain 100, no other edges), selling the asset
through `process_transaction` adds exactly 100 of tax in total: 50 to B (its
remaining share 1/2) and 50 to A (remaining share 1 on the proxy gain). -/
theorem claim1_two_layer_total_tax (b p cc : ℚ) (t : String)
    (ht : t ≠ "Annuity") (hp : p ≤ cc) :
    ∃ net', processTransaction 4 (c1Net b t cc) ⟨"B", "C", Good.asset "Z", Good.cash p, false⟩
        = Except.ok net' ∧ taxLiability net' = 100 := by
  have hno : ¬ ((b : ℚ) - (b + 100) > 250000) := by linarith
  have hmap : (processTransaction 4 (c1Net b t cc)
      ⟨"B", "C", Good.asset "Z", Good.cash p, false⟩).map taxLiability = Except.ok 100 := by
    simp only [processTransaction, c1Net, addEntity, addAsset, addPartnership, emptyNetwork,
      updateInitialPartnershipAssets, updateEntityEdges, updatePartnershipAssets, derivedEdgeList,
      mkDirectProxy, mkNestProxy, aset, aupd, alookup, flat, mapEntity, getEntity, setPAList,
      List.foldl_cons, List.foldl_nil, List.map_cons, List.map_nil,
      List.append_nil, List.nil_append, List.cons_append, Option.getD_some, Option.getD_none,
      Option.map_some', Option.map_none', Option.isSome_some, Option.isSome_none,
      String.reduceEq, String.reduceBEq, reduceIte, reduceDIte, Bool.false_eq_true,
      Bool.true_eq_false, if_true, if_false, ite_true, ite_false, Partnership.mk.injEq,
      eq_self_iff_true, and_self, and_true, true_and,
      decide_eq_false hno, eq_false (not_lt.mpr hp), eq_false ht, not_false_eq_true,
      List.mem_cons, List.mem_singleton, List.not_mem_nil, or_false, false_or,
      isTransactionViable, hasSubstantialBuiltInLoss, determineTax, partnerShareSum, allEdgePairs,
      taxAdd, calcPartnerTaxAsset, cptaGo, cptaScan, getPAListD, paFmv, paTypeOf, assetTypeD,
      assetFmvD, assetBasisD, adjustOwnership, setBasisToFmv, addDirect, subDirect, cashAdj,
      addAssetUpstream, aauGo, removeAssetUpstream, rauGo, rauScan, updPAList, mkUpProxy,
      PAsset.insideBasis, PAsset.rootName, taxLiability, List.filter, List.sum_cons, List.sum_nil,
      List.length_cons, List.length_nil, List.eraseIdx, List.erase, List.get?, decide_True,
      decide_False, Bool.or_false, Bool.false_or, Bool.or_true, Bool.true_or, Except.map,
      Function.comp]
    rw [if_pos ht]
    simp only [List.foldl_cons, List.foldl_nil, List.map_cons, List.map_nil,
      List.append_nil, List.nil_append, List.cons_append, Option.getD_some, Option.getD_none,
      Option.map_some', Option.map_none', Option.isSome_some, Option.isSome_none,
      String.reduceEq, String.reduceBEq, reduceIte, reduceDIte, Bool.false_eq_true,
      Bool.true_eq_false, if_true, if_false, ite_true, ite_false, Partnership.mk.injEq,
      eq_self_iff_true, and_self, and_true, true_and, aset, aupd, alookup, flat, mapEntity,
      getEntity, setPAList, getPAListD, updPAList, taxAdd, paFmv, paTypeOf, assetTypeD, assetFmvD,
      assetBasisD, partnerShareSum, allEdgePairs, aauGo, rauGo, rauScan, mkUpProxy, cptaGo,
      cptaScan, PAsset.insideBasis, PAsset.rootName, taxLiability, List.filter, List.sum_cons,
      List.sum_nil, List.length_cons, List.length_nil, List.eraseIdx, List.erase, List.get?,
      decide_True, decide_False, Except.map, Function.comp, addAssetUpstream,
      removeAssetUpstream, adjustOwnership, setBasisToFmv, addDirect, subDirect, cashAdj,
      mkNestProxy, mkDirectProxy]
    norm_num
    linarith
  cases hrun : processTransaction 4 (c1Net b t cc)
      ⟨"B", "C", Good.asset "Z", Good.cash p, false⟩ with
  | error e => rw [hrun] at hmap; simp [Except.map] at hmap
  | ok n =>
      rw [hrun] at hmap
      simp only [Except.map, Except.ok.injEq] at hmap
      exact ⟨n, rfl, hmap⟩

/-- Claim C1, witness: the concrete instance with basis 0, price 0 and buyer
cash 0 succeeds and records total tax 100. -/
theorem claim1_two_layer_total_tax_w :
    ∃ net', processTransaction 4 (c1Net 0 "Material" 0)
        ⟨"B", "C", Good.asset "Z", Good.cash 0, false⟩
        = Except.ok net' ∧ taxLiability net' = 100 :=
  claim1_two_layer_total_tax 0 0 0 "Material" (by decide) (by decide)

/-- Lookup at a different key is unchanged by a keyed in-place map. -/
theorem alookup_map_set_ne {K V : Type} [DecidableEq K] (k k' : K) (f : V → V) (hne : k' ≠ k) :
    ∀ l : List (K × V),
      alookup (l.map (fun kv => if kv.1 = k then (kv.1, f kv.2) else kv)) k' = alookup l k' := by
  intro l
  induction l with
  | nil => rfl
  | cons kv rest ih =>
      by_cases h : kv.1 = k
      · have h2 : ¬ k = k' := fun hx => hne hx.symm
        simp [alookup, h, h2, ih]
      · by_cases h3 : kv.1 = k'
        · simp [alookup, h, h3, hne, ih]
        · simp [alookup, h, h3, ih]

/-- A keyed in-place update that preserves `eCore` preserves the core projection
of the whole entity list. -/
theorem map_core_map_upd (k : String) (f : Entity → Entity)
    (hf : ∀ e, eCore (f e) = eCore e) :
    ∀ l : List (String × Entity),
      (l.map (fun ke => if ke.1 = k then (ke.1, f ke.2) else ke)).map
          (fun ke => (ke.1, eCore ke.2))
        = l.map (fun ke => (ke.1, eCore ke.2)) := by
  intro l
  induction l with
  | nil => rfl
  | cons ke rest ih =>
      by_cases h : ke.1 = k
      · simp [h, ih, hf]
      · simp [h, ih]

/-- A keyed in-place update that preserves the partnership keys preserves the
edge pairs of the network. -/
theorem edges_mapEntity (net : Network) (k : String) (f : Entity → Entity)
    (hf : ∀ e, (f e).partnerships.map Prod.fst = e.partnerships.map Prod.fst) :
    allEdgePairs (mapEntity net k f) = allEdgePairs net := by
  unfold allEdgePairs mapEntity
  simp only []
  have : ∀ l : List (String × Entity),
      flat ((l.map (fun ke => if ke.1 = k then (ke.1, f ke.2) else ke)).map
        (fun ke => (ke.2.partnerships.map Prod.fst).map (fun p => (ke.1, p))))
      = flat (l.map (fun ke => (ke.2.partnerships.map Prod.fst).map (fun p => (ke.1, p)))) := by
    intro l
    induction l with
    | nil => rfl
    | cons ke rest ih =>
        by_cases h : ke.1 = k
        · simp only [List.map_cons, flat, if_pos h, hf ke.2, ih]
        · simp only [List.map_cons, flat, if_neg h, ih]
  exact this net.entities

/-- `aupd` preserves the keys of an association list. -/
theorem aupd_keys {K V : Type} [DecidableEq K] (k : K) (f : V → V) :
    ∀ l : List (K × V), (aupd l k f).map Prod.fst = l.map Prod.fst := by
  intro l
  induction l with
  | nil => rfl
  | cons kv rest ih =>
      by_cases h : kv.1 = k
      · simp [aupd, h] at ih ⊢; exact ih
      · simp [aupd, h] at ih ⊢; exact ih

/-- In-place proxy-list updates change neither the asset registry, nor any
entity core, nor the edge pairs. -/
theorem coreView_updPAList (net : Network) (k : String) (p : Partnership)
    (f : List PAsset → List PAsset) : coreView (updPAList net k p f) = coreView net := by
  unfold coreView updPAList mapEntity
  simp only [Prod.mk.injEq]
  refine ⟨trivial, ?_, ?_⟩
  · exact map_core_map_upd k
      (fun e => { e with partnerships := aupd e.partnerships p f }) (fun e => rfl) net.entities
  · exact edges_mapEntity net k
      (fun e => { e with partnerships := aupd e.partnerships p f })
      (fun e => aupd_keys p f e.partnerships)

/-- Tax record accumulation does not touch the core view. -/
theorem coreView_taxAdd (net : Network) (k : String) (amt : ℚ) :
    coreView (taxAdd net k amt) = coreView net := rfl

/-- The loop of `add_asset_upstream` preserves the core view whenever its
recursive callback does. -/
theorem aauGo_core (rec : Network → String → UpGood → Option Network)
    (hrec : ∀ n e g n', rec n e g = some n' → coreView n' = coreView n) :
    ∀ (jobs : List (String × Partnership)) (net : Network) (ename : String) (g : UpGood)
      (net' : Network), aauGo rec net ename g jobs = some net' → coreView net' = coreView net := by
  intro jobs
  induction jobs with
  | nil =>
      intro net e g net' h
      simp only [aauGo, Option.some.injEq] at h
      rw [h]
  | cons kp rest ih =>
      intro net e g net' h
      obtain ⟨k, p⟩ := kp
      simp only [aauGo] at h
      by_cases hc : p.partner_name = e
      · rw [if_pos hc] at h
        cases hr : rec (updPAList net k p (fun l => l ++ [mkUpProxy net g p.share])) k
            (UpGood.pa (mkUpProxy net g p.share)) with
        | none => rw [hr] at h; cases h
        | some net2 =>
            rw [hr] at h
            calc coreView net' = coreView net2 := ih net2 e g net' h
              _ = coreView (updPAList net k p (fun l => l ++ [mkUpProxy net g p.share])) :=
                  hrec _ _ _ _ hr
              _ = coreView net := coreView_updPAList net k p _
      · rw [if_neg hc] at h
        exact ih net e g net' h

/-- `add_asset_upstream` preserves the asset registry, entity cores and edges. -/
theorem aau_core : ∀ (fuel : Nat) (net : Network) (ename : String) (g : UpGood) (net' : Network),
    addAssetUpstream fuel net ename g = some net' → coreView net' = coreView net := by
  intro fuel
  induction fuel with
  | zero => intro net e g net' h; cases h
  | succ f ih =>
      intro net e g net' h
      simp only [addAssetUpstream] at h
      exact aauGo_core _ (fun n e2 g2 n' hh => ih n e2 g2 n' hh) _ _ _ _ _ h

/-- The scan loop of `remove_asset_upstream` preserves the core view whenever its
recursive callback does. -/
theorem rauScan_core (rec : Network → String → String → Option Network)
    (hrec : ∀ n e gn n', rec n e gn = some n' → coreView n' = coreView n)
    (k : String) (p : Partnership) (gname : String) :
    ∀ (steps i : Nat) (net net' : Network),
      rauScan rec net k p gname i steps = some net' → coreView net' = coreView net := by
  intro steps
  induction steps with
  | zero =>
      intro i net net' h
      simp only [rauScan, Option.some.injEq] at h
      rw [h]
  | succ st ih =>
      intro i net net' h
      simp only [rauScan] at h
      cases hg : (getPAListD net k p).get? i with
      | none => simp only [hg, Option.some.injEq] at h; rw [h]
      | some pa =>
          simp only [hg] at h
          by_cases hc : pa.rootName = gname
          · rw [if_pos hc] at h
            cases hr : rec (updPAList net k p (fun l => l.eraseIdx i)) k gname with
            | none => rw [hr] at h; cases h
            | some net2 =>
                rw [hr] at h
                calc coreView net' = coreView net2 := ih (i + 1) net2 net' h
                  _ = coreView (updPAList net k p (fun l => l.eraseIdx i)) := hrec _ _ _ _ hr
                  _ = coreView net := coreView_updPAList net k p _
          · rw [if_neg hc] at h
            exact ih (i + 1) net net' h

/-- The entity loop of `remove_asset_upstream` preserves the core view. -/
theorem rauGo_core (rec : Network → String → String → Option Network)
    (hrec : ∀ n e gn n', rec n e gn = some n' → coreView n' = coreView n) :
    ∀ (jobs : List (String × Partnership)) (net : Network) (ename gname : String)
      (net' : Network), rauGo rec net ename gname jobs = some net' → coreView net' = coreView net := by
  intro jobs
  induction jobs with
  | nil =>
      intro net e gn net' h
      simp only [rauGo, Option.some.injEq] at h
      rw [h]
  | cons kp rest ih =>
      intro net e gn net' h
      obtain ⟨k, p⟩ := kp
      simp only [rauGo] at h
      by_cases hc : p.partner_name = e
      · rw [if_pos hc] at h
        cases hr : rauScan rec net k p gn 0 (getPAListD net k p).length with
        | none => rw [hr] at h; cases h
        | some net1 =>
            rw [hr] at h
            calc coreView net' = coreView net1 := ih net1 e gn net' h
              _ = coreView net := rauScan_core rec hrec k p gn _ 0 net net1 hr
      · rw [if_neg hc] at h
        exact ih net e gn net' h

/-- `remove_asset_upstream` preserves the asset registry, entity cores and edges. -/
theorem rau_core : ∀ (fuel : Nat) (net : Network) (ename gname : String) (net' : Network),
    removeAssetUpstream fuel net ename gname = some net' → coreView net' = coreView net := by
  intro fuel
  induction fuel with
  | zero => intro net e gn net' h; cases h
  | succ f ih =>
      intro net e gn net' h
      simp only [removeAssetUpstream] at h
      exact rauGo_core _ (fun n e2 g2 n' hh => ih n e2 g2 n' hh) _ _ _ _ _ h

/-- The loop of `add_partnership_upstream` preserves the core view. -/
theorem apuGo_core (rec : Network → String → Partnership → Option Network)
    (hrec : ∀ n e pp n', rec n e pp = some n' → coreView n' = coreView n) :
    ∀ (jobs : List (String × Partnership)) (net : Network) (ename : String) (poi : Partnership)
      (net' : Network), apuGo rec net ename poi jobs = some net' → coreView net' = coreView net := by
  intro jobs
  induction jobs with
  | nil =>
      intro net e poi net' h
      simp only [apuGo, Option.some.injEq] at h
      rw [h]
  | cons kp rest ih =>
      intro net e poi net' h
      obtain ⟨k, p⟩ := kp
      simp only [apuGo] at h
      by_cases hc : p.partner_name = e
      · rw [if_pos hc] at h
        cases hr : rec (updPAList net k p
            (fun l => l ++ (getPAListD net e poi).map (fun na => mkNestProxy na p.share))) k p with
        | none => rw [hr] at h; cases h
        | some net2 =>
            rw [hr] at h
            calc coreView net' = coreView net2 := ih net2 e poi net' h
              _ = coreView (updPAList net k p
                  (fun l => l ++ (getPAListD net e poi).map (fun na => mkNestProxy na p.share))) :=
                  hrec _ _ _ _ hr
              _ = coreView net := coreView_updPAList net k p _
      · rw [if_neg hc] at h
        exact ih net e poi net' h

/-- `add_partnership_upstream` preserves the asset registry, entity cores and edges. -/
theorem apu_core : ∀ (fuel : Nat) (net : Network) (ename : String) (poi : Partnership)
    (net' : Network),
    addPartnershipUpstream fuel net ename poi = some net' → coreView net' = coreView net := by
  intro fuel
  induction fuel with
  | zero => intro net e poi net' h; cases h
  | succ f ih =>
      intro net e poi net' h
      simp only [addPartnershipUpstream] at h
      exact apuGo_core _ (fun n e2 p2 n' hh => ih n e2 p2 n' hh) _ _ _ _ _ h

/-- The loop of `remove_partnership_upstream` preserves the core view. -/
theorem rpuGo_core (rec : Network → String → Partnership → Option Network)
    (hrec : ∀ n e pp n', rec n e pp = some n' → coreView n' = coreView n) :
    ∀ (jobs : List (String × Partnership)) (net : Network) (ename : String) (names : List String)
      (net' : Network), rpuGo rec net ename names jobs = some net' → coreView net' = coreView net := by
  intro jobs
  induction jobs with
  | nil =>
      intro net e names net' h
      simp only [rpuGo, Option.some.injEq] at h
      rw [h]
  | cons kp rest ih =>
      intro net e names net' h
      obtain ⟨k, p⟩ := kp
      simp only [rpuGo] at h
      by_cases hc : p.partner_name = e
      · rw [if_pos hc] at h
        cases hr : rec (updPAList net k p
            (fun l => l.filter (fun pa => decide (pa.rootName ∉ names)))) k p with
        | none => rw [hr] at h; cases h
        | some net2 =>
            rw [hr] at h
            calc coreView net' = coreView net2 := ih net2 e names net' h
              _ = coreView (updPAList net k p
                  (fun l => l.filter (fun pa => decide (pa.rootName ∉ names)))) := hrec _ _ _ _ hr
              _ = coreView net := coreView_updPAList net k p _
      · rw [if_neg hc] at h
        exact ih net e names net' h

/-- `remove_partnership_upstream` preserves the asset registry, entity cores and
edges. -/
theorem rpu_core : ∀ (fuel : Nat) (net : Network) (ename : String) (poi : Partnership)
    (net' : Network),
    removePartnershipUpstream fuel net ename poi = some net' → coreView net' = coreView net := by
  intro fuel
  induction fuel with
  | zero => intro net e poi net' h; cases h
  | succ f ih =>
      intro net e poi net' h
      simp only [removePartnershipUpstream] at h
      exact rpuGo_core _ (fun n e2 p2 n' hh => ih n e2 p2 n' hh) _ _ _ _ _ h

/-- The proxy scan of `_calculate_partner_tax_asset` preserves the core view. -/
theorem cptaScan_core (rec : Network → String → String → Option Network)
    (hrec : ∀ n e a n', rec n e a = some n' → coreView n' = coreView n) (k aname : String) :
    ∀ (pas : List PAsset) (net net' : Network),
      cptaScan rec net k aname pas = some net' → coreView net' = coreView net := by
  intro pas
  induction pas with
  | nil =>
      intro net net' h
      simp only [cptaScan, Option.some.injEq] at h
      rw [h]
  | cons pa rest ih =>
      intro net net' h
      simp only [cptaScan] at h
      by_cases hc : pa.rootName = aname
      · rw [if_pos hc] at h
        cases hr : rec (taxAdd net k
            ((1 - partnerShareSum net k) * (paFmv net pa - pa.insideBasis))) k aname with
        | none => rw [hr] at h; cases h
        | some net2 =>
            rw [hr] at h
            calc coreView net' = coreView net2 := ih net2 net' h
              _ = coreView (taxAdd net k
                  ((1 - partnerShareSum net k) * (paFmv net pa - pa.insideBasis))) :=
                  hrec _ _ _ _ hr
              _ = coreView net := coreView_taxAdd net k _
      · rw [if_neg hc] at h
        exact ih net net' h

/-- The entity loop of `_calculate_partner_tax_asset` preserves the core view. -/
theorem cptaGo_core (rec : Network → String → String → Option Network)
    (hrec : ∀ n e a n', rec n e a = some n' → coreView n' = coreView n) :
    ∀ (jobs : List (String × Partnership)) (net : Network) (ename aname : String)
      (net' : Network), cptaGo rec net ename aname jobs = some net' → coreView net' = coreView net := by
  intro jobs
  induction jobs with
  | nil =>
      intro net e a net' h
      simp only [cptaGo, Option.some.injEq] at h
      rw [h]
  | cons kp rest ih =>
      intro net e a net' h
      obtain ⟨k, p⟩ := kp
      simp only [cptaGo] at h
      by_cases hc : p.partner_name = e
      · rw [if_pos hc] at h
        cases hr : cptaScan rec net k a (getPAListD net k p) with
        | none => rw [hr] at h; cases h
        | some net1 =>
            rw [hr] at h
            calc coreView net' = coreView net1 := ih net1 e a net' h
              _ = coreView net := cptaScan_core rec hrec k a _ net net1 hr
      · rw [if_neg hc] at h
        exact ih net e a net' h

/-- `_calculate_partner_tax_asset` only accumulates tax records. -/
theorem cpta_core : ∀ (fuel : Nat) (net : Network) (ename aname : String) (net' : Network),
    calcPartnerTaxAsset fuel net ename aname = some net' → coreView net' = coreView net := by
  intro fuel
  induction fuel with
  | zero => intro net e a net' h; cases h
  | succ f ih =>
      intro net e a net' h
      simp only [calcPartnerTaxAsset] at h
      exact cptaGo_core _ (fun n e2 a2 n' hh => ih n e2 a2 n' hh) _ _ _ _ _ h

/-- The entity loop of `_calculate_partner_tax_partnership` preserves the core
view. -/
theorem cptpGo_core (rec : Network → String → Option Network)
    (hrec : ∀ n e n', rec n e = some n' → coreView n' = coreView n) :
    ∀ (jobs : List (String × Partnership)) (net : Network) (ename : String) (net' : Network),
      cptpGo rec net ename jobs = some net' → coreView net' = coreView net := by
  intro jobs
  induction jobs with
  | nil =>
      intro net e net' h
      simp only [cptpGo, Option.some.injEq] at h
      rw [h]
  | cons kp rest ih =>
      intro net e net' h
      obtain ⟨k, p⟩ := kp
      simp only [cptpGo] at h
      by_cases hc : p.partner_name = e
      · rw [if_pos hc] at h
        cases hr : rec (taxAdd net k ((1 - partnerShareSum net k) *
            ((((getPAListD net k p).filter
                (fun pa => decide (paTypeOf net pa ≠ "Annuity"))).map (paFmv net)).sum -
              (((getPAListD net k p).filter
                (fun pa => decide (paTypeOf net pa ≠ "Annuity"))).map PAsset.insideBasis).sum))) k with
        | none => rw [hr] at h; cases h
        | some net2 =>
            rw [hr] at h
            calc coreView net' = coreView net2 := ih net2 e net' h
              _ = coreView (taxAdd net k _) := hrec _ _ _ hr
              _ = coreView net := coreView_taxAdd net k _
      · rw [if_neg hc] at h
        exact ih net e net' h

/-- `_calculate_partner_tax_partnership` only accumulates tax records. -/
theorem cptp_core : ∀ (fuel : Nat) (net : Network) (ename : String) (net' : Network),
    calcPartnerTaxPartnership fuel net ename = some net' → coreView net' = coreView net := by
  intro fuel
  induction fuel with
  | zero => intro net e net' h; cases h
  | succ f ih =>
      intro net e net' h
      simp only [calcPartnerTaxPartnership] at h
      exact cptpGo_core _ (fun n e2 n' hh => ih n e2 n' hh) _ _ _ _ h

/-- `determine_tax` only accumulates tax records: the registry, entity cores and
edges are unchanged. -/
theorem dtax_core (fuel : Nat) (net : Network) (ename : String) (g : Good) (net' : Network)
    (h : determineTax fuel net ename g = some net') : coreView net' = coreView net := by
  cases g with
  | asset an =>
      simp only [determineTax] at h
      by_cases hty : assetTypeD net an ≠ "Annuity"
      · rw [if_pos hty] at h
        calc coreView net' = coreView (taxAdd net ename
              ((1 - partnerShareSum net ename) * (assetFmvD net an - assetBasisD net an))) :=
              cpta_core fuel _ ename an net' h
          _ = coreView net := coreView_taxAdd net ename _
      · rw [if_neg hty] at h
        simp only [Option.some.injEq] at h
        rw [h]
  | partnership p =>
      simp only [determineTax] at h
      calc coreView net' = coreView (taxAdd net ename _) := cptp_core fuel _ ename net' h
        _ = coreView net := coreView_taxAdd net ename _
  | passet pa => simp only [determineTax, Option.some.injEq] at h; rw [h]
  | cash c => simp only [determineTax, Option.some.injEq] at h; rw [h]

/-- One side of `adjust_partner_basis` only rewrites proxy lists. -/
theorem apbSide_core (fuel : Nat) (net : Network) (ename : String) (g gOther : Good)
    (net' : Network) (h : adjustPartnerBasisSide fuel net ename g gOther = some net') :
    coreView net' = coreView net := by
  cases g with
  | partnership p =>
      simp only [adjustPartnerBasisSide] at h
      cases hcv : counterpartValue net gOther with
      | none => simp only [hcv] at h; cases h
      | some cv =>
          simp only [hcv] at h
          cases hr : removePartnershipUpstream fuel
              (updPAList net ename p (fun l => l.map (fun pa => pa.setInsideBasis cv))) ename p with
          | none => rw [hr] at h; cases h
          | some net2 =>
              rw [hr] at h
              calc coreView net' = coreView net2 := apu_core fuel net2 ename p net' h
                _ = coreView (updPAList net ename p
                    (fun l => l.map (fun pa => pa.setInsideBasis cv))) :=
                    rpu_core fuel _ ename p net2 hr
                _ = coreView net := coreView_updPAList net ename p _
  | asset an => simp only [adjustPartnerBasisSide, Option.some.injEq] at h; rw [h]
  | passet pa => simp only [adjustPartnerBasisSide, Option.some.injEq] at h; rw [h]
  | cash c => simp only [adjustPartnerBasisSide, Option.some.injEq] at h; rw [h]

/-- `adjust_partner_basis` only rewrites proxy lists. -/
theorem apb_core (fuel : Nat) (net : Network) (tx : Transaction) (net' : Network)
    (h : adjustPartnerBasis fuel net tx = some net') : coreView net' = coreView net := by
  simp only [adjustPartnerBasis] at h
  cases h1 : adjustPartnerBasisSide fuel net tx.entity1 tx.good1 tx.good2 with
  | none => rw [h1] at h; cases h
  | some net1 =>
      rw [h1] at h
      calc coreView net' = coreView net1 := apbSide_core fuel net1 tx.entity2 tx.good2 tx.good1 net' h
        _ = coreView net := apbSide_core fuel net tx.entity1 tx.good1 tx.good2 net1 h1

/-- Two association lists with equal key-projected images have pointwise equal
projected lookups. -/
theorem alookup_map_proj {K V W : Type} [DecidableEq K] (proj : V → W) :
    ∀ (l1 l2 : List (K × V)),
      l1.map (fun kv => (kv.1, proj kv.2)) = l2.map (fun kv => (kv.1, proj kv.2)) →
      ∀ k, (alookup l1 k).map proj = (alookup l2 k).map proj := by
  intro l1
  induction l1 with
  | nil =>
      intro l2 h k
      cases l2 with
      | nil => rfl
      | cons kv2 rest2 => simp at h
  | cons kv rest ih =>
      intro l2 h k
      cases l2 with
      | nil => simp at h
      | cons kv2 rest2 =>
          simp only [List.map_cons, List.cons.injEq, Prod.mk.injEq] at h
          obtain ⟨⟨hk, hv⟩, hrest⟩ := h
          by_cases hkk : kv.1 = k
          · have hk2 : kv2.1 = k := by rw [← hk]; exact hkk
            simp [alookup, hkk, hk2, hv]
          · have hk2 : ¬ kv2.1 = k := by rw [← hk]; exact hkk
            simp only [alookup, if_neg hkk, if_neg hk2]
            exact ih rest2 hrest k

/-- Equal core views give equal asset registries. -/
theorem assets_of_coreView {m1 m2 : Network} (h : coreView m1 = coreView m2) :
    m1.assets = m2.assets := congrArg Prod.fst h

/-- Equal core views give equal edge pairs. -/
theorem edges_of_coreView {m1 m2 : Network} (h : coreView m1 = coreView m2) :
    allEdgePairs m1 = allEdgePairs m2 := congrArg (fun v => v.2.2) h

/-- Equal core views give pointwise equal core-projected entity lookups. -/
theorem ecore_of_coreView {m1 m2 : Network} (h : coreView m1 = coreView m2) (k : String) :
    (getEntity m1 k).map eCore = (getEntity m2 k).map eCore := by
  have hents : m1.entities.map (fun ke => (ke.1, eCore ke.2))
      = m2.entities.map (fun ke => (ke.1, eCore ke.2)) := congrArg (fun v => v.2.1) h
  exact alookup_map_proj eCore m1.entities m2.entities hents k

/-- Equal core views give pointwise equal direct-asset lookups. -/
theorem direct_of_coreView {m1 m2 : Network} (h : coreView m1 = coreView m2) (k : String) :
    (getEntity m1 k).map Entity.direct_assets = (getEntity m2 k).map Entity.direct_assets := by
  have hc := ecore_of_coreView h k
  cases h1 : getEntity m1 k with
  | none =>
      cases h2 : getEntity m2 k with
      | none => rfl
      | some e2 => rw [h1, h2] at hc; cases hc
  | some e1 =>
      cases h2 : getEntity m2 k with
      | none => rw [h1, h2] at hc; cases hc
      | some e2 =>
          rw [h1, h2] at hc
          simp only [Option.map_some', Option.some.injEq] at hc
          have : e1.direct_assets = e2.direct_assets := congrArg (fun v => v.2.1) hc
          simp [this]

/-- Lookup of the modified entity after a keyed in-place entity update. -/
theorem getEntity_mapEntity_self (net : Network) (k : String) (f : Entity → Entity) :
    getEntity (mapEntity net k f) k = (getEntity net k).map f :=
  alookup_map_set k f net.entities

/-- Lookup of a different entity after a keyed in-place entity update. -/
theorem getEntity_mapEntity_ne (net : Network) (k k' : String) (f : Entity → Entity)
    (hne : k' ≠ k) : getEntity (mapEntity net k f) k' = getEntity net k' :=
  alookup_map_set_ne k k' f hne net.entities

/-- A keyed entity update that does not change direct assets leaves every
direct-asset lookup unchanged. -/
theorem direct_mapEntity_keep (net : Network) (k k' : String) (f : Entity → Entity)
    (hf : ∀ e, (f e).direct_assets = e.direct_assets) :
    (getEntity (mapEntity net k f) k').map Entity.direct_assets
      = (getEntity net k').map Entity.direct_assets := by
  by_cases h : k' = k
  · subst h
    rw [getEntity_mapEntity_self]
    cases getEntity net k' with
    | none => rfl
    | some e => simp [hf]
  · rw [getEntity_mapEntity_ne net k k' f h]

/-- The registry entry of the stepped-up asset after `basis = fmv`. -/
theorem alookup_setBasisToFmv (net : Network) (an : String) :
    alookup (setBasisToFmv net an).assets an
      = (alookup net.assets an).map (fun x => { x with basis := x.fmv }) := by
  simp only [setBasisToFmv]
  exact alookup_map_set an (fun x => { x with basis := x.fmv }) net.assets

/-- Other registry entries are untouched by the step-up. -/
theorem alookup_setBasisToFmv_ne (net : Network) (an an' : String) (h : an' ≠ an) :
    alookup (setBasisToFmv net an).assets an' = alookup net.assets an' := by
  simp only [setBasisToFmv]
  exact alookup_map_set_ne an an' (fun x => { x with basis := x.fmv }) h net.assets

theorem getEntity_addDirect_self (net : Network) (k an : String) :
    getEntity (addDirect net k an) k
      = (getEntity net k).map (fun e => { e with direct_assets := e.direct_assets ++ [an] }) := by
  simp only [addDirect]
  exact getEntity_mapEntity_self net k (fun e => { e with direct_assets := e.direct_assets ++ [an] })

theorem getEntity_addDirect_ne (net : Network) (k k' an : String) (h : k' ≠ k) :
    getEntity (addDirect net k an) k' = getEntity net k' := by
  simp only [addDirect]
  exact getEntity_mapEntity_ne net k k'
    (fun e => { e with direct_assets := e.direct_assets ++ [an] }) h

theorem getEntity_subDirect_self (net : Network) (k an : String) :
    getEntity (subDirect net k an) k
      = (getEntity net k).map (fun e => { e with direct_assets := e.direct_assets.erase an }) := by
  simp only [subDirect]
  exact getEntity_mapEntity_self net k
    (fun e => { e with direct_assets := e.direct_assets.erase an })

theorem getEntity_subDirect_ne (net : Network) (k k' an : String) (h : k' ≠ k) :
    getEntity (subDirect net k an) k' = getEntity net k' := by
  simp only [subDirect]
  exact getEntity_mapEntity_ne net k k'
    (fun e => { e with direct_assets := e.direct_assets.erase an }) h

theorem direct_cashAdj (net : Network) (k : String) (d : ℚ) (k' : String) :
    (getEntity (cashAdj net k d) k').map Entity.direct_assets
      = (getEntity net k' ).map Entity.direct_assets := by
  simp only [cashAdj]
  exact direct_mapEntity_keep net k k'
    (fun e => { e with cash_balance := e.cash_balance + d }) (fun e => rfl)

theorem direct_setPAList (net : Network) (k : String) (p : Partnership) (v : List PAsset)
    (k' : String) :
    (getEntity (setPAList net k p v) k').map Entity.direct_assets
      = (getEntity net k').map Entity.direct_assets := by
  simp only [setPAList]
  exact direct_mapEntity_keep net k k'
    (fun e => { e with partnerships := aset e.partnerships p v }) (fun e => rfl)

/-- The asset-moving half of `adjust_ownership`: the transferred asset is stepped
up to fmv, appended to the recipient and erased from the sender, while the
upstream propagation changes no asset record and no direct list. -/
theorem c6_move (fuel : Nat) (n4 n5 : Network) (e1n e2n an : String)
    (e1s e2s : Entity) (a4 : Asset)
    (hne : e1n ≠ e2n)
    (ha4 : alookup n4.assets an = some a4)
    (h1s : getEntity n4 e1n = some e1s) (h2s : getEntity n4 e2n = some e2s)
    (hmv : adjustOwnership fuel n4 e1n e2n (Good.asset an) = some n5) :
    alookup n5.assets an = some { a4 with basis := a4.fmv } ∧
    (getEntity n5 e2n).map Entity.direct_assets = some (e2s.direct_assets ++ [an]) ∧
    (getEntity n5 e1n).map Entity.direct_assets = some (e1s.direct_assets.erase an) := by
  simp only [adjustOwnership] at hmv
  cases haau : addAssetUpstream fuel (addDirect (setBasisToFmv n4 an) e2n an) e2n
      (UpGood.asset an) with
  | none => simp only [haau] at hmv; cases hmv
  | some n4a =>
      simp only [haau] at hmv
      have hca : coreView n4a = coreView (addDirect (setBasisToFmv n4 an) e2n an) :=
        aau_core fuel _ e2n _ n4a haau
      have hcr : coreView n5 = coreView (subDirect n4a e1n an) :=
        rau_core fuel _ e1n an n5 hmv
      refine ⟨?_, ?_, ?_⟩
      · have e1 := assets_of_coreView hcr
        have e2 := assets_of_coreView hca
        have e3 : (subDirect n4a e1n an).assets = n4a.assets := rfl
        have e4 : (addDirect (setBasisToFmv n4 an) e2n an).assets
            = (setBasisToFmv n4 an).assets := rfl
        rw [e1, e3, e2, e4, alookup_setBasisToFmv, ha4]
        rfl
      · have s2 : getEntity (addDirect (setBasisToFmv n4 an) e2n an) e2n
            = (getEntity n4 e2n).map
                (fun e => { e with direct_assets := e.direct_assets ++ [an] }) :=
          getEntity_addDirect_self (setBasisToFmv n4 an) e2n an
        have s3 := direct_of_coreView hca e2n
        have s4 : getEntity (subDirect n4a e1n an) e2n = getEntity n4a e2n :=
          getEntity_subDirect_ne n4a e1n e2n an (fun hx => hne hx.symm)
        have s5 := direct_of_coreView hcr e2n
        rw [s5, s4, s3, s2, h2s]
        rfl
      · have s2 : getEntity (addDirect (setBasisToFmv n4 an) e2n an) e1n
            = getEntity n4 e1n :=
          getEntity_addDirect_ne (setBasisToFmv n4 an) e2n e1n an hne
        have s3 := direct_of_coreView hca e1n
        have s4 : getEntity (subDirect n4a e1n an) e1n
            = (getEntity n4a e1n).map
                (fun e => { e with direct_assets := e.direct_assets.erase an }) :=
          getEntity_subDirect_self n4a e1n an
        have s5 := direct_of_coreView hcr e1n
        rw [s5, s4]
        have hdir4a : (getEntity n4a e1n).map Entity.direct_assets
            = some e1s.direct_assets := by
          rw [s3, s2, h1s]
          rfl
        cases hg : getEntity n4a e1n with
        | none => rw [hg] at hdir4a; cases hdir4a
        | some e1a =>
            rw [hg] at hdir4a
            simp only [Option.map_some', Option.some.injEq] at hdir4a ⊢
            rw [hdir4a]

/-- The counter-good half of `adjust_ownership` (entity2 pays entity1) does not
disturb the registry entry of the moved asset, keeps it in the recipient and
keeps it out of the sender, for every counter-good distinct from it. -/
theorem c6_keep (fuel : Nat) (n5 n6 : Network) (e1n e2n an : String) (g2 : Good)
    (hne : e1n ≠ e2n) (hbn : ∀ bn, g2 = Good.asset bn → bn ≠ an)
    (d1 d2 : List String)
    (hd1 : (getEntity n5 e1n).map Entity.direct_assets = some d1) (han1 : an ∉ d1)
    (hd2 : (getEntity n5 e2n).map Entity.direct_assets = some d2) (han2 : an ∈ d2)
    (ho2 : adjustOwnership fuel n5 e2n e1n g2 = some n6) :
    alookup n6.assets an = alookup n5.assets an ∧
    (∃ e2f, getEntity n6 e2n = some e2f ∧ an ∈ e2f.direct_assets) ∧
    (∃ e1f, getEntity n6 e1n = some e1f ∧ an ∉ e1f.direct_assets) := by
  have mk2 : ∀ (m : Network) (d : List String),
      (getEntity m e2n).map Entity.direct_assets = some d → an ∈ d →
      ∃ e2f, getEntity m e2n = some e2f ∧ an ∈ e2f.direct_assets := by
    intro m d hm hmem
    cases hg : getEntity m e2n with
    | none => rw [hg] at hm; cases hm
    | some ef =>
        rw [hg] at hm
        simp only [Option.map_some', Option.some.injEq] at hm
        exact ⟨ef, rfl, hm ▸ hmem⟩
  have mk1 : ∀ (m : Network) (d : List String),
      (getEntity m e1n).map Entity.direct_assets = some d → an ∉ d →
      ∃ e1f, getEntity m e1n = some e1f ∧ an ∉ e1f.direct_assets := by
    intro m d hm hmem
    cases hg : getEntity m e1n with
    | none => rw [hg] at hm; cases hm
    | some ef =>
        rw [hg] at hm
        simp only [Option.map_some', Option.some.injEq] at hm
        exact ⟨ef, rfl, hm ▸ hmem⟩
  cases g2 with
  | cash c =>
      simp only [adjustOwnership, Option.some.injEq] at ho2
      subst ho2
      refine ⟨rfl, ?_, ?_⟩
      · refine mk2 _ d2 ?_ han2
        rw [direct_cashAdj _ e1n c e2n, direct_cashAdj _ e2n (-c) e2n]
        exact hd2
      · refine mk1 _ d1 ?_ han1
        rw [direct_cashAdj _ e1n c e1n, direct_cashAdj _ e2n (-c) e1n]
        exact hd1
  | passet pa =>
      simp only [adjustOwnership, Option.some.injEq] at ho2
      subst ho2
      exact ⟨rfl, mk2 _ d2 hd2 han2, mk1 _ d1 hd1 han1⟩
  | partnership p =>
      simp only [adjustOwnership] at ho2
      cases hap : addPartnershipUpstream fuel
          (setPAList n5 e1n p (getPAListD n5 e2n p)) e1n p with
      | none => simp only [hap] at ho2; cases ho2
      | some m2 =>
          simp only [hap] at ho2
          cases hrp : removePartnershipUpstream fuel m2 e2n p with
          | none => simp only [hrp] at ho2; cases ho2
          | some m3 =>
              simp only [hrp, Option.some.injEq] at ho2
              subst ho2
              have hca : coreView m2 = coreView (setPAList n5 e1n p (getPAListD n5 e2n p)) :=
                apu_core fuel _ e1n p m2 hap
              have hcr : coreView m3 = coreView m2 := rpu_core fuel m2 e2n p m3 hrp
              refine ⟨?_, ?_, ?_⟩
              · have e0 : (mapEntity m3 e2n
                    (fun e => { e with partnerships := adrop e.partnerships p })).assets
                    = m3.assets := rfl
                rw [e0, assets_of_coreView hcr, assets_of_coreView hca]
                rfl
              · refine mk2 _ d2 ?_ han2
                rw [direct_mapEntity_keep m3 e2n e2n
                    (fun e => { e with partnerships := adrop e.partnerships p }) (fun e => rfl),
                  direct_of_coreView hcr e2n, direct_of_coreView hca e2n,
                  direct_setPAList n5 e1n p (getPAListD n5 e2n p) e2n]
                exact hd2
              · refine mk1 _ d1 ?_ han1
                rw [direct_mapEntity_keep m3 e2n e1n
                    (fun e => { e with partnerships := adrop e.partnerships p }) (fun e => rfl),
                  direct_of_coreView hcr e1n, direct_of_coreView hca e1n,
                  direct_setPAList n5 e1n p (getPAListD n5 e2n p) e1n]
                exact hd1
  | asset bn =>
      have hbnne : bn ≠ an := hbn bn rfl
      simp only [adjustOwnership] at ho2
      cases haau : addAssetUpstream fuel (addDirect (setBasisToFmv n5 bn) e1n bn) e1n
          (UpGood.asset bn) with
      | none => simp only [haau] at ho2; cases ho2
      | some m2 =>
          simp only [haau] at ho2
          have hca : coreView m2 = coreView (addDirect (setBasisToFmv n5 bn) e1n bn) :=
            aau_core fuel _ e1n _ m2 haau
          have hcr : coreView n6 = coreView (subDirect m2 e2n bn) :=
            rau_core fuel _ e2n bn n6 ho2
          refine ⟨?_, ?_, ?_⟩
          · have e1 := assets_of_coreView hcr
            have e2 := assets_of_coreView hca
            have e3 : (subDirect m2 e2n bn).assets = m2.assets := rfl
            have e4 : (addDirect (setBasisToFmv n5 bn) e1n bn).assets
                = (setBasisToFmv n5 bn).assets := rfl
            rw [e1, e3, e2, e4]
            exact alookup_setBasisToFmv_ne n5 bn an hbnne.symm
          · have s2 : getEntity (addDirect (setBasisToFmv n5 bn) e1n bn) e2n
                = getEntity n5 e2n :=
              getEntity_addDirect_ne (setBasisToFmv n5 bn) e1n e2n bn (fun hx => hne hx.symm)
            have s3 := direct_of_coreView hca e2n
            have s4 : getEntity (subDirect m2 e2n bn) e2n
                = (getEntity m2 e2n).map
                    (fun e => { e with direct_assets := e.direct_assets.erase bn }) :=
              getEntity_subDirect_self m2 e2n bn
            have s5 := direct_of_coreView hcr e2n
            have hdirm2 : (getEntity m2 e2n).map Entity.direct_assets = some d2 := by
              rw [s3, s2]; exact hd2
            cases hg : getEntity m2 e2n with
            | none => rw [hg] at hdirm2; cases hdirm2
            | some e2a =>
                rw [hg] at hdirm2
                simp only [Option.map_some', Option.some.injEq] at hdirm2
                have hn6d : (getEntity n6 e2n).map Entity.direct_assets
                    = some (d2.erase bn) := by
                  rw [s5, s4, hg]
                  simp only [Option.map_some', Option.some.injEq]
                  rw [hdirm2]
                refine mk2 _ (d2.erase bn) hn6d ?_
                exact (List.mem_erase_of_ne (fun hx => hbnne hx.symm)).mpr han2
          · have s2 : getEntity (addDirect (setBasisToFmv n5 bn) e1n bn) e1n
                = (getEntity n5 e1n).map
                    (fun e => { e with direct_assets := e.direct_assets ++ [bn] }) :=
              getEntity_addDirect_self (setBasisToFmv n5 bn) e1n bn
            have s3 := direct_of_coreView hca e1n
            have s4 : getEntity (subDirect m2 e2n bn) e1n = getEntity m2 e1n :=
              getEntity_subDirect_ne m2 e2n e1n bn hne
            have s5 := direct_of_coreView hcr e1n
            have hn6d : (getEntity n6 e1n).map Entity.direct_assets
                = some (d1 ++ [bn]) := by
              rw [s5, s4, s3, s2]
              cases hg : getEntity n5 e1n with
              | none => rw [hg] at hd1; cases hd1
              | some e1a =>
                  rw [hg] at hd1
                  simp only [Option.map_some', Option.some.injEq] at hd1
                  simp only [Option.map_some', Option.some.injEq]
                  rw [hd1]
            refine mk1 _ (d1 ++ [bn]) hn6d ?_
            intro hmem
            rcases List.mem_append.mp hmem with hmem1 | hmem2
            · exact han1 hmem1
            · exact hbnne (List.mem_singleton.mp hmem2).symm
set_option maxHeartbeats 1000000 in
/-- C6: when `process_transaction` transfers an asset from entity1 to entity2
(against any counter-good that is not that same asset), afterwards the asset's
basis equals its fmv, the asset is in entity2's direct list and out of
entity1's direct list. -/
theorem claim6_asset_transfer (fuel : Nat) (net n6 : Network) (tx : Transaction)
    (an : String) (e1s e2s : Entity) (a0 : Asset)
    (hg1 : tx.good1 = Good.asset an)
    (hne : tx.entity1 ≠ tx.entity2)
    (hbn : ∀ bn, tx.good2 = Good.asset bn → bn ≠ an)
    (ha0 : alookup net.assets an = some a0)
    (h1 : getEntity net tx.entity1 = some e1s)
    (h2 : getEntity net tx.entity2 = some e2s)
    (hcount : e1s.direct_assets.count an ≤ 1)
    (hrun : processTransaction fuel net tx = .ok n6) :
    (∃ af, alookup n6.assets an = some af ∧ af.basis = af.fmv) ∧
    (∃ e2f, getEntity n6 tx.entity2 = some e2f ∧ an ∈ e2f.direct_assets) ∧
    (∃ e1f, getEntity n6 tx.entity1 = some e1f ∧ an ∉ e1f.direct_assets) := by
  simp only [processTransaction, h1, h2] at hrun
  cases hv1 : isTransactionViable net e1s tx.good1 with
  | error m => simp only [hv1] at hrun; cases hrun
  | ok u =>
    simp only [hv1] at hrun
    cases hv2 : isTransactionViable net e2s tx.good2 with
    | error m => simp only [hv2] at hrun; cases hrun
    | ok u2 =>
      simp only [hv2] at hrun
      cases hstep : (if tx.election754 || hasSubstantialBuiltInLoss net tx.good1 tx.entity1
          || hasSubstantialBuiltInLoss net tx.good2 tx.entity2 then
            adjustPartnerBasis fuel net tx else some net) with
      | none => simp only [hstep] at hrun; cases hrun
      | some n2 =>
        simp only [hstep] at hrun
        have hc2 : coreView n2 = coreView net := by
          by_cases hcond : (tx.election754 || hasSubstantialBuiltInLoss net tx.good1 tx.entity1
              || hasSubstantialBuiltInLoss net tx.good2 tx.entity2) = true
          · rw [if_pos hcond] at hstep
            exact apb_core fuel net tx n2 hstep
          · rw [if_neg hcond] at hstep
            simp only [Option.some.injEq] at hstep
            rw [← hstep]
        cases hdt1 : determineTax fuel n2 tx.entity1 tx.good1 with
        | none => simp only [hdt1] at hrun; cases hrun
        | some n3 =>
          simp only [hdt1] at hrun
          have hc3 : coreView n3 = coreView n2 := dtax_core fuel n2 tx.entity1 tx.good1 n3 hdt1
          cases hdt2 : determineTax fuel n3 tx.entity2 tx.good2 with
          | none => simp only [hdt2] at hrun; cases hrun
          | some n4 =>
            simp only [hdt2] at hrun
            have hc4 : coreView n4 = coreView n3 := dtax_core fuel n3 tx.entity2 tx.good2 n4 hdt2
            cases hao1 : adjustOwnership fuel n4 tx.entity1 tx.entity2 tx.good1 with
            | none => simp only [hao1] at hrun; cases hrun
            | some n5 =>
              simp only [hao1] at hrun
              cases hao2 : adjustOwnership fuel n5 tx.entity2 tx.entity1 tx.good2 with
              | none => simp only [hao2] at hrun; cases hrun
              | some n6x =>
                simp only [hao2, Except.ok.injEq] at hrun
                subst hrun
                have hcv4 : coreView n4 = coreView net := by rw [hc4, hc3, hc2]
                have ha4 : alookup n4.assets an = some a0 := by
                  rw [assets_of_coreView hcv4]; exact ha0
                have hd1n4 : (getEntity n4 tx.entity1).map Entity.direct_assets
                    = some e1s.direct_assets := by
                  rw [direct_of_coreView hcv4 tx.entity1, h1]; rfl
                have hd2n4 : (getEntity n4 tx.entity2).map Entity.direct_assets
                    = some e2s.direct_assets := by
                  rw [direct_of_coreView hcv4 tx.entity2, h2]; rfl
                cases hg1s4 : getEntity n4 tx.entity1 with
                | none => rw [hg1s4] at hd1n4; cases hd1n4
                | some e1s4 =>
                  rw [hg1s4] at hd1n4
                  simp only [Option.map_some', Option.some.injEq] at hd1n4
                  cases hg2s4 : getEntity n4 tx.entity2 with
                  | none => rw [hg2s4] at hd2n4; cases hd2n4
                  | some e2s4 =>
                    rw [hg2s4] at hd2n4
                    simp only [Option.map_some', Option.some.injEq] at hd2n4
                    rw [hg1] at hao1
                    obtain ⟨A1, A2, A3⟩ :=
                      c6_move fuel n4 n5 tx.entity1 tx.entity2 an e1s4 e2s4 a0
                        hne ha4 hg1s4 hg2s4 hao1
                    rw [hd1n4] at A3
                    rw [hd2n4] at A2
                    have han1 : an ∉ e1s.direct_assets.erase an := by
                      intro hmem
                      have hpos : 0 < (e1s.direct_assets.erase an).count an :=
                        List.count_pos_iff.mpr hmem
                      rw [List.count_erase_self] at hpos
                      omega
                    have han2 : an ∈ e2s.direct_assets ++ [an] :=
                      List.mem_append_right _ (List.mem_singleton.mpr rfl)
                    obtain ⟨B1, B2, B3⟩ :=
                      c6_keep fuel n5 _ tx.entity1 tx.entity2 an tx.good2 hne hbn
                        (e1s.direct_assets.erase an) (e2s.direct_assets ++ [an])
                        A3 han1 A2 han2 hao2
                    refine ⟨⟨{ a0 with basis := a0.fmv }, ?_, rfl⟩, B2, B3⟩
                    rw [B1]
                    exact A1

theorem claim6_asset_transfer_w :
    (∃ af, alookup c2After.assets "H" = some af ∧ af.basis = af.fmv) ∧
    (∃ e2f, getEntity c2After "C" = some e2f ∧ "H" ∈ e2f.direct_assets) ∧
    (∃ e1f, getEntity c2After "A" = some e1f ∧ "H" ∉ e1f.direct_assets) :=
  claim6_asset_transfer 6 c2Net c2After c2Tx "H"
    ⟨"A", ["H"], [], 1000⟩ ⟨"C", [], [], 1000⟩ ⟨"H", "Material", 120, 200⟩
    rfl (by decide) (fun bn h => Good.noConfusion h) (by decide) (by decide) (by decide)
    (by decide) (by decide)
/-- The loop of `add_asset_upstream` returns a result whenever the rank
certificate bounds the remaining fuel. -/
theorem aauGo_total (f : Nat) (rank : String → Nat)
    (IH : ∀ (net : Network) (ename : String) (g : UpGood),
      edgeRankOK rank (allEdgePairs net) → rank ename < f →
      (addAssetUpstream f net ename g).isSome) :
    ∀ (jobs : List (String × Partnership)) (net : Network) (ename : String) (g : UpGood),
      edgeRankOK rank (allEdgePairs net) →
      (∀ kp ∈ jobs, rank kp.1 < rank kp.2.partner_name) →
      rank ename ≤ f →
      (aauGo (fun n2 e2 g2 => addAssetUpstream f n2 e2 g2) net ename g jobs).isSome := by
  intro jobs
  induction jobs with
  | nil => intro net ename g _ _ _; simp [aauGo]
  | cons kp rest ih =>
    intro net ename g hOK hjobs hf
    obtain ⟨k, p⟩ := kp
    by_cases hp : p.partner_name = ename
    · simp only [aauGo, if_pos hp]
      have h1OK : edgeRankOK rank (allEdgePairs
          (updPAList net k p (fun l => l ++ [mkUpProxy net g p.share]))) := by
        rw [edges_of_coreView (coreView_updPAList net k p
          (fun l => l ++ [mkUpProxy net g p.share]))]
        exact hOK
      have hrkk : rank k < f := by
        have h2 : rank k < rank p.partner_name := hjobs (k, p) (List.mem_cons_self _ _)
        rw [hp] at h2
        omega
      have hrec := IH (updPAList net k p (fun l => l ++ [mkUpProxy net g p.share])) k
        (.pa (mkUpProxy net g p.share)) h1OK hrkk
      cases hr : addAssetUpstream f (updPAList net k p (fun l => l ++ [mkUpProxy net g p.share]))
          k (.pa (mkUpProxy net g p.share)) with
      | none => rw [hr] at hrec; cases hrec
      | some net2 =>
        simp only [hr]
        have h2OK : edgeRankOK rank (allEdgePairs net2) := by
          rw [edges_of_coreView (aau_core f _ k _ net2 hr),
            edges_of_coreView (coreView_updPAList net k p
              (fun l => l ++ [mkUpProxy net g p.share]))]
          exact hOK
        exact ih net2 ename g h2OK (fun kq hkq => hjobs kq (List.mem_cons_of_mem _ hkq)) hf
    · simp only [aauGo, if_neg hp]
      exact ih net ename g hOK (fun kq hkq => hjobs kq (List.mem_cons_of_mem _ hkq)) hf

/-- `add_asset_upstream` succeeds whenever a rank certificate of acyclicity
bounds the fuel. -/
theorem aau_total : ∀ (fuel : Nat) (rank : String → Nat) (net : Network) (ename : String)
    (g : UpGood), edgeRankOK rank (allEdgePairs net) → rank ename < fuel →
    (addAssetUpstream fuel net ename g).isSome := by
  intro fuel
  induction fuel with
  | zero => intro rank net ename g _ hf; omega
  | succ f ihf =>
    intro rank net ename g hOK hf
    exact aauGo_total f rank (fun n2 e2 g2 hOK2 hf2 => ihf rank n2 e2 g2 hOK2 hf2)
      (allEdgePairs net) net ename g hOK (fun kp hkp => hOK kp hkp) (Nat.lt_succ_iff.mp hf)

/-- The inner removal scan of `remove_asset_upstream` returns a result whenever
the rank certificate bounds the remaining fuel. -/
theorem rauScan_total (f : Nat) (rank : String → Nat)
    (IH : ∀ (net : Network) (ename gname : String),
      edgeRankOK rank (allEdgePairs net) → rank ename < f →
      (removeAssetUpstream f net ename gname).isSome) :
    ∀ (steps i : Nat) (net : Network) (k : String) (p : Partnership) (gname : String),
      edgeRankOK rank (allEdgePairs net) →
      rank k < f →
      (rauScan (fun n2 e2 g2 => removeAssetUpstream f n2 e2 g2) net k p gname i steps).isSome := by
  intro steps
  induction steps with
  | zero => intro i net k p gname _ _; simp [rauScan]
  | succ st ih =>
    intro i net k p gname hOK hrkk
    rw [rauScan]
    cases hget : (getPAListD net k p).get? i with
    | none => simp
    | some pa =>
      simp only
      by_cases hroot : pa.rootName = gname
      · rw [if_pos hroot]
        have h1OK : edgeRankOK rank (allEdgePairs
            (updPAList net k p (fun l => l.eraseIdx i))) := by
          rw [edges_of_coreView (coreView_updPAList net k p (fun l => l.eraseIdx i))]
          exact hOK
        have hrec := IH (updPAList net k p (fun l => l.eraseIdx i)) k gname h1OK hrkk
        cases hr : removeAssetUpstream f (updPAList net k p (fun l => l.eraseIdx i)) k gname with
        | none => rw [hr] at hrec; cases hrec
        | some net2 =>
          simp only [hr]
          have h2OK : edgeRankOK rank (allEdgePairs net2) := by
            rw [edges_of_coreView (rau_core f _ k gname net2 hr),
              edges_of_coreView (coreView_updPAList net k p (fun l => l.eraseIdx i))]
            exact hOK
          exact ih (i + 1) net2 k p gname h2OK hrkk
      · rw [if_neg hroot]
        exact ih (i + 1) net k p gname hOK hrkk

/-- The outer loop of `remove_asset_upstream` returns a result whenever the rank
certificate bounds the remaining fuel. -/
theorem rauGo_total (f : Nat) (rank : String → Nat)
    (IH : ∀ (net : Network) (ename gname : String),
      edgeRankOK rank (allEdgePairs net) → rank ename < f →
      (removeAssetUpstream f net ename gname).isSome) :
    ∀ (jobs : List (String × Partnership)) (net : Network) (ename gname : String),
      edgeRankOK rank (allEdgePairs net) →
      (∀ kp ∈ jobs, rank kp.1 < rank kp.2.partner_name) →
      rank ename ≤ f →
      (rauGo (fun n2 e2 g2 => removeAssetUpstream f n2 e2 g2) net ename gname jobs).isSome := by
  intro jobs
  induction jobs with
  | nil => intro net ename gname _ _ _; simp [rauGo]
  | cons kp rest ih =>
    intro net ename gname hOK hjobs hf
    obtain ⟨k, p⟩ := kp
    by_cases hp : p.partner_name = ename
    · simp only [rauGo, if_pos hp]
      have hrkk : rank k < f := by
        have h2 : rank k < rank p.partner_name := hjobs (k, p) (List.mem_cons_self _ _)
        rw [hp] at h2
        omega
      have hscan := rauScan_total f rank IH (getPAListD net k p).length 0 net k p gname hOK hrkk
      cases hs : rauScan (fun n2 e2 g2 => removeAssetUpstream f n2 e2 g2) net k p gname 0
          (getPAListD net k p).length with
      | none => rw [hs] at hscan; cases hscan
      | some net1 =>
        simp only [hs]
        have h1OK : edgeRankOK rank (allEdgePairs net1) := by
          rw [edges_of_coreView (rauScan_core (fun n2 e2 g2 => removeAssetUpstream f n2 e2 g2)
            (fun n e gn n' hh => rau_core f n e gn n' hh) k p gname
            (getPAListD net k p).length 0 net net1 hs)]
          exact hOK
        exact ih net1 ename gname h1OK (fun kq hkq => hjobs kq (List.mem_cons_of_mem _ hkq)) hf
    · simp only [rauGo, if_neg hp]
      exact ih net ename gname hOK (fun kq hkq => hjobs kq (List.mem_cons_of_mem _ hkq)) hf

/-- `remove_asset_upstream` succeeds whenever a rank certificate of acyclicity
bounds the fuel. -/
theorem rau_total : ∀ (fuel : Nat) (rank : String → Nat) (net : Network) (ename gname : String),
    edgeRankOK rank (allEdgePairs net) → rank ename < fuel →
    (removeAssetUpstream fuel net ename gname).isSome := by
  intro fuel
  induction fuel with
  | zero => intro rank net ename gname _ hf; omega
  | succ f ihf =>
    intro rank net ename gname hOK hf
    exact rauGo_total f rank (fun n2 e2 g2 hOK2 hf2 => ihf rank n2 e2 g2 hOK2 hf2)
      (allEdgePairs net) net ename gname hOK (fun kp hkp => hOK kp hkp) (Nat.lt_succ_iff.mp hf)

/-- The loop of `add_partnership_upstream` returns a result whenever the rank
certificate bounds the remaining fuel. -/
theorem apuGo_total (f : Nat) (rank : String → Nat)
    (IH : ∀ (net : Network) (ename : String) (poi : Partnership),
      edgeRankOK rank (allEdgePairs net) → rank ename < f →
      (addPartnershipUpstream f net ename poi).isSome) :
    ∀ (jobs : List (String × Partnership)) (net : Network) (ename : String) (poi : Partnership),
      edgeRankOK rank (allEdgePairs net) →
      (∀ kp ∈ jobs, rank kp.1 < rank kp.2.partner_name) →
      rank ename ≤ f →
      (apuGo (fun n2 e2 p2 => addPartnershipUpstream f n2 e2 p2) net ename poi jobs).isSome := by
  intro jobs
  induction jobs with
  | nil => intro net ename poi _ _ _; simp [apuGo]
  | cons kp rest ih =>
    intro net ename poi hOK hjobs hf
    obtain ⟨k, p⟩ := kp
    by_cases hp : p.partner_name = ename
    · simp only [apuGo, if_pos hp]
      have h1OK : edgeRankOK rank (allEdgePairs (updPAList net k p
          (fun l => l ++ (getPAListD net ename poi).map (fun na => mkNestProxy na p.share)))) := by
        rw [edges_of_coreView (coreView_updPAList net k p
          (fun l => l ++ (getPAListD net ename poi).map (fun na => mkNestProxy na p.share)))]
        exact hOK
      have hrkk : rank k < f := by
        have h2 : rank k < rank p.partner_name := hjobs (k, p) (List.mem_cons_self _ _)
        rw [hp] at h2
        omega
      have hrec := IH (updPAList net k p
          (fun l => l ++ (getPAListD net ename poi).map (fun na => mkNestProxy na p.share)))
        k p h1OK hrkk
      cases hr : addPartnershipUpstream f (updPAList net k p
          (fun l => l ++ (getPAListD net ename poi).map (fun na => mkNestProxy na p.share)))
          k p with
      | none => rw [hr] at hrec; cases hrec
      | some net2 =>
        simp only [hr]
        have h2OK : edgeRankOK rank (allEdgePairs net2) := by
          rw [edges_of_coreView (apu_core f _ k p net2 hr),
            edges_of_coreView (coreView_updPAList net k p
              (fun l => l ++ (getPAListD net ename poi).map (fun na => mkNestProxy na p.share)))]
          exact hOK
        exact ih net2 ename poi h2OK (fun kq hkq => hjobs kq (List.mem_cons_of_mem _ hkq)) hf
    · simp only [apuGo, if_neg hp]
      exact ih net ename poi hOK (fun kq hkq => hjobs kq (List.mem_cons_of_mem _ hkq)) hf

/-- `add_partnership_upstream` succeeds whenever a rank certificate of acyclicity
bounds the fuel. -/
theorem apu_total : ∀ (fuel : Nat) (rank : String → Nat) (net : Network) (ename : String)
    (poi : Partnership), edgeRankOK rank (allEdgePairs net) → rank ename < fuel →
    (addPartnershipUpstream fuel net ename poi).isSome := by
  intro fuel
  induction fuel with
  | zero => intro rank net ename poi _ hf; omega
  | succ f ihf =>
    intro rank net ename poi hOK hf
    exact apuGo_total f rank (fun n2 e2 p2 hOK2 hf2 => ihf rank n2 e2 p2 hOK2 hf2)
      (allEdgePairs net) net ename poi hOK (fun kp hkp => hOK kp hkp) (Nat.lt_succ_iff.mp hf)

/-- The loop of `remove_partnership_upstream` returns a result whenever the rank
certificate bounds the remaining fuel. -/
theorem rpuGo_total (f : Nat) (rank : String → Nat)
    (IH : ∀ (net : Network) (ename : String) (poi : Partnership),
      edgeRankOK rank (allEdgePairs net) → rank ename < f →
      (removePartnershipUpstream f net ename poi).isSome) :
    ∀ (jobs : List (String × Partnership)) (net : Network) (ename : String) (names : List String),
      edgeRankOK rank (allEdgePairs net) →
      (∀ kp ∈ jobs, rank kp.1 < rank kp.2.partner_name) →
      rank ename ≤ f →
      (rpuGo (fun n2 e2 p2 => removePartnershipUpstream f n2 e2 p2) net ename names jobs).isSome := by
  intro jobs
  induction jobs with
  | nil => intro net ename names _ _ _; simp [rpuGo]
  | cons kp rest ih =>
    intro net ename names hOK hjobs hf
    obtain ⟨k, p⟩ := kp
    by_cases hp : p.partner_name = ename
    · simp only [rpuGo, if_pos hp]
      have h1OK : edgeRankOK rank (allEdgePairs (updPAList net k p
          (fun l => l.filter (fun pa => decide (pa.rootName ∉ names))))) := by
        rw [edges_of_coreView (coreView_updPAList net k p
          (fun l => l.filter (fun pa => decide (pa.rootName ∉ names))))]
        exact hOK
      have hrkk : rank k < f := by
        have h2 : rank k < rank p.partner_name := hjobs (k, p) (List.mem_cons_self _ _)
        rw [hp] at h2
        omega
      have hrec := IH (updPAList net k p
          (fun l => l.filter (fun pa => decide (pa.rootName ∉ names)))) k p h1OK hrkk
      cases hr : removePartnershipUpstream f (updPAList net k p
          (fun l => l.filter (fun pa => decide (pa.rootName ∉ names)))) k p with
      | none => rw [hr] at hrec; cases hrec
      | some net2 =>
        simp only [hr]
        have h2OK : edgeRankOK rank (allEdgePairs net2) := by
          rw [edges_of_coreView (rpu_core f _ k p net2 hr),
            edges_of_coreView (coreView_updPAList net k p
              (fun l => l.filter (fun pa => decide (pa.rootName ∉ names))))]
          exact hOK
        exact ih net2 ename names h2OK (fun kq hkq => hjobs kq (List.mem_cons_of_mem _ hkq)) hf
    · simp only [rpuGo, if_neg hp]
      exact ih net ename names hOK (fun kq hkq => hjobs kq (List.mem_cons_of_mem _ hkq)) hf

/-- `remove_partnership_upstream` succeeds whenever a rank certificate of
acyclicity bounds the fuel. -/
theorem rpu_total : ∀ (fuel : Nat) (rank : String → Nat) (net : Network) (ename : String)
    (poi : Partnership), edgeRankOK rank (allEdgePairs net) → rank ename < fuel →
    (removePartnershipUpstream fuel net ename poi).isSome := by
  intro fuel
  induction fuel with
  | zero => intro rank net ename poi _ hf; omega
  | succ f ihf =>
    intro rank net ename poi hOK hf
    exact rpuGo_total f rank (fun n2 e2 p2 hOK2 hf2 => ihf rank n2 e2 p2 hOK2 hf2)
      (allEdgePairs net) net ename ((getPAListD net ename poi).map PAsset.rootName) hOK
      (fun kp hkp => hOK kp hkp) (Nat.lt_succ_iff.mp hf)

/-- C8: on a network whose partnership graph is acyclic — certified by a rank
function under which every holder ranks strictly below the partner its edge
points at — all four recursive upstream-propagation procedures terminate with a
result; the fuel parameter is the embedding's recursion-depth bound, and any
fuel exceeding the starting entity's rank suffices, the recursion bottoming out
at entities no edge points at. -/
theorem claim8_upstream_termination (fuel : Nat) (rank : String → Nat) (net : Network)
    (ename gname : String) (g : UpGood) (poi : Partnership)
    (hOK : edgeRankOK rank (allEdgePairs net)) (hf : rank ename < fuel) :
    (addAssetUpstream fuel net ename g).isSome ∧
    (removeAssetUpstream fuel net ename gname).isSome ∧
    (addPartnershipUpstream fuel net ename poi).isSome ∧
    (removePartnershipUpstream fuel net ename poi).isSome :=
  ⟨aau_total fuel rank net ename g hOK hf,
   rau_total fuel rank net ename gname hOK hf,
   apu_total fuel rank net ename poi hOK hf,
   rpu_total fuel rank net ename poi hOK hf⟩

theorem claim8_upstream_termination_w :
    (addAssetUpstream 2 (c1Net 0 "Material" 0) "B" (UpGood.asset "Z")).isSome ∧
    (removeAssetUpstream 2 (c1Net 0 "Material" 0) "B" "Z").isSome ∧
    (addPartnershipUpstream 2 (c1Net 0 "Material" 0) "B" ⟨"B", 1/2⟩).isSome ∧
    (removePartnershipUpstream 2 (c1Net 0 "Material" 0) "B" ⟨"B", 1/2⟩).isSome :=
  claim8_upstream_termination 2 (fun n => if n = "B" then 1 else 0) (c1Net 0 "Material" 0)
    "B" "Z" (UpGood.asset "Z") ⟨"B", 1/2⟩ (by decide) (by decide)
